import Mathlib

/-!
# codesync-atom: change detection and diff staging

A shallow embedding of `src/lib/codesyncd/populate_buffer.js`.

Modelling conventions
* A path is its list of segments; `path.join a b` is `a ++ b`.  A branch name is one segment.
* The file system is an association list from paths to UTF-8 contents of regular files.  A
  directory exists where a stored file lies below it, or where `Env.directories` lists it; the
  existence test of line 101, on a live path, sees files and directories.  Inside the shadow,
  originals and deleted trees the paths tested are those of tracked files and hold a regular
  file or nothing.
* JavaScript exceptions are the `Except JsError` monad.
* `s.split(root + "/")[1]`, applied to a path that lies below `root`, is the path with the
  segments of `root` dropped (a second occurrence of `root` further down is not modelled).
* JS objects used as dictionaries are association lists with in-place update.  The `in`
  operator and a property read also see the names inherited from `Object.prototype`
  (`jsIn`, `usersLookup`, `branchLookup`); `Object.keys` sees own keys only.
* What is imported from outside the two source files (constants, `similarity`,
  `isBinaryFileSync`, the `diff-match-patch` codec, `dateFormat`) is a field of `Env`.
-/

namespace CodeSync

/-- A path, as the list of its segments. -/
abbrev Path := List String

/-- Exceptions the embedded code can raise. -/
inductive JsError where
  | typeError
  | enoent
  deriving DecidableEq, Repr

/-! ## Dictionaries (JS objects) -/

/-- Property read `obj[k]`; `none` is `undefined`. -/
def objGet {β : Type} : List (Path × β) → Path → Option β
  | [], _ => none
  | (q, v) :: rest, k => if q = k then some v else objGet rest k

/-- Property write `obj[k] = v`: an existing key keeps its position. -/
def objSet {β : Type} : List (Path × β) → Path → β → List (Path × β)
  | [], k, v => [(k, v)]
  | (q, w) :: rest, k, v => if q = k then (q, v) :: rest else (q, w) :: objSet rest k v

/-- The own-property test: `k` is one of `Object.keys(obj)`. -/
def objHas {β : Type} (obj : List (Path × β)) (k : Path) : Bool :=
  (objGet obj k).isSome

/-- The property names every plain object inherits from `Object.prototype`. -/
def objectPrototypeNames : List String :=
  ["constructor", "__defineGetter__", "__defineSetter__", "hasOwnProperty",
   "__lookupGetter__", "__lookupSetter__", "isPrototypeOf", "propertyIsEnumerable",
   "toString", "valueOf", "__proto__", "toLocaleString"]

/-- The key is an inherited property name: the key string of a path is its segments joined
by `/`, so only a one-segment path can be one. -/
def isInheritedKey (k : Path) : Bool :=
  match k with
  | [name] => decide (name ∈ objectPrototypeNames)
  | _ => false

/-- The `in` operator, `k in obj`, on an object read from YAML: true for an own key and for
a property name inherited from `Object.prototype`. -/
def jsIn {β : Type} (obj : List (Path × β)) (k : Path) : Bool :=
  objHas obj k || isInheritedKey k

/-- The keys of `Object.keys(obj)`: each key once, in first-insertion order. -/
def objKeys {β : Type} : List (Path × β) → List Path
  | [] => []
  | (q, _) :: rest => q :: (objKeys rest).filter (fun k => decide (k ≠ q))

/-- Removal of the key `k` from a dictionary. -/
def objErase {β : Type} : List (Path × β) → Path → List (Path × β)
  | [], _ => []
  | (q, w) :: rest, k => if q = k then objErase rest k else (q, w) :: objErase rest k

/-! ## File system -/

/-- The file system: regular files and their contents. -/
abbrev FS := List (Path × String)

/-- The call `fs.existsSync(p)` on a path inside a snapshot tree (lines 133, 173, 223), where
the path of a tracked file holds a regular file or nothing. -/
def existsSync (fs : FS) (p : Path) : Bool :=
  objHas fs p

/-- The call `fs.readFileSync(p, "utf8")`; throws when there is no such file. -/
def readFileSync (fs : FS) (p : Path) : Except JsError String :=
  match objGet fs p with
  | some c => .ok c
  | none => .error .enoent

/-- The call `fs.unlinkSync(p)`; throws when there is no such file. -/
def unlinkSync (fs : FS) (p : Path) : Except JsError FS :=
  if existsSync fs p then .ok (objErase fs p) else .error .enoent

/-- The files `walk.walkSync(root, ...)` reports to its `file` listener: every regular file
strictly below `root`, once, paired with its content. -/
def walkSync (fs : FS) (root : Path) : List (Path × String) :=
  ((objKeys fs).filter (fun p => decide (root <+: p ∧ p ≠ root))).filterMap
    (fun p => (objGet fs p).map (fun c => (p, c)))

/-! ## Data model -/

/-- One element of `itemPaths`, as returned by `initUtils.getSyncablePaths`. -/
structure TrackedItem where
  file_path : Path
  rel_path : Path
  size : Nat
  modified_at : Nat
  created_at : Nat
  is_binary : Bool
  deriving DecidableEq, Repr

/-- The `configFiles` mapping of one branch: relative path to file id, or `null`. -/
abbrev ConfigFiles := List (Path × Option Nat)

/-- Imports of `populate_buffer.js` that are not defined in it, and `directories`: the
directories on disk under which no stored file lies (the other directories are the ancestors
of the stored files).  The similarity ratio and its threshold are on an integer grid. -/
structure Env where
  SHADOW_REPO : Path
  ORIGINALS_REPO : Path
  DELETED_REPO : Path
  FILE_SIZE_AS_COPY : Nat
  SEQUENCE_MATCHER_RATIO : Nat
  similarity : String → String → Nat
  isBinaryFileSync : String → Bool
  makePatch : String → String → String
  dateFormat : Nat → String
  directories : List Path

/-- The value of the `diff` property of a record: `null`, a patch text, or the
`JSON.stringify` of a rename payload (a non-empty string, kept structured). -/
inductive DiffValue where
  | null
  | text (s : String)
  | renameJSON (old_abs_path new_abs_path old_rel_path new_rel_path : Path)
  deriving DecidableEq, Repr

/-- Truthiness of a `diff` value, as tested by `if (diff || isNewFile)`. -/
def DiffValue.truthy : DiffValue → Bool
  | .null => false
  | .text s => decide (s ≠ "")
  | .renameJSON _ _ _ _ => true

/-- A diff record; `none` is a property that the object literal does not set. -/
structure DiffRecord where
  diff : DiffValue
  is_rename : Option Bool
  is_new_file : Option Bool
  is_binary : Option Bool
  is_deleted : Option Bool
  created_at : Option String
  deriving DecidableEq, Repr

/-- The `diffs` object: relative path to record. -/
abbrev Diffs := List (Path × DiffRecord)

/-- A directory exists at `p`: a stored file lies strictly below `p`, or `p` is one of the
directories that hold no stored file. -/
def isDirectory (env : Env) (fs : FS) (p : Path) : Bool :=
  fs.any (fun e => decide (p <+: e.1 ∧ p ≠ e.1)) || decide (p ∈ env.directories)

/-- The call `fs.existsSync(p)` of line 101, on a path of the live repository: true for a
regular file and for a directory. -/
def existsSyncLive (env : Env) (fs : FS) (p : Path) : Bool :=
  existsSync fs p || isDirectory env fs p

/-! ## PopulateBuffer.checkForRename -/

/-- The result object of `checkForRename`. -/
structure RenameResult where
  isRename : Bool
  shadowFilePath : Path
  deriving DecidableEq, Repr

/-- The `file` listener of `checkForRename`, acting on the two captured variables
`(shadowFilePath, matchingFilesCount)`. -/
def renameListener (env : Env) (fs : FS) (repoPath shadowRepoBranchPath : Path) (content : String)
    (acc : Path × Nat) (file : Path × String) : Path × Nat :=
  let oldFilePath := file.1
  let isBinary := env.isBinaryFileSync file.2
  if isBinary then acc
  else
    let relPath := oldFilePath.drop shadowRepoBranchPath.length
    let actualFilePath := repoPath ++ relPath
    if existsSyncLive env fs actualFilePath then acc
    else
      let shadowContent := file.2
      let ratio := env.similarity content shadowContent
      if ratio > env.SEQUENCE_MATCHER_RATIO then (oldFilePath, acc.2 + 1) else acc

/-- The method `checkForRename(shadowRepoBranchPath, filePath)`. -/
def checkForRename (env : Env) (fs : FS) (repoPath shadowRepoBranchPath filePath : Path) :
    Except JsError RenameResult := do
  let content ← readFileSync fs filePath
  if content = "" then
    return { isRename := false, shadowFilePath := [] }
  let r := (walkSync fs shadowRepoBranchPath).foldl
    (renameListener env fs repoPath shadowRepoBranchPath content) ([], 0)
  return { isRename := decide (r.2 = 1), shadowFilePath := r.1 }

/-! ## initUtils.copyFilesTo -/

/-- Modelled from the spec: the relative path `copyFilesTo` appends to its destination.  The
helper lives in `lib/init/utils`, which is not among the sources.  The spec addresses every tree
as `tree-root/repoPath/branch/relPath`; for the two call shapes of the source, a live file
`repoPath/relPath` copied below `tree-root/repoPath/branch` and a shadow file
`shadow-root/repoPath/branch/relPath` copied below `deleted-root/repoPath`, this is what
follows the first occurrence of `repoPath` inside the source path. -/
def relativeAfter (repoPath : Path) : Path → Option Path
  | [] => if repoPath = [] then some [] else none
  | x :: xs =>
    if repoPath <+: (x :: xs) then some ((x :: xs).drop repoPath.length)
    else relativeAfter repoPath xs

/-- Modelled from the spec: `initUtils.copyFilesTo(repoPath, filePaths, destination)` is not
among the sources.  Per the Snapshot Store `write` operation of the spec it copies the content
of each source file into the destination tree at the file's path relative to `repoPath`,
creating or overwriting the target; the copy is best-effort, so a source that cannot be read
or placed leaves the file system as it is. -/
def copyFilesTo (fs : FS) (repoPath : Path) (filePaths : List Path) (destination : Path) : FS :=
  filePaths.foldl
    (fun fs filePath =>
      match relativeAfter repoPath filePath, objGet fs filePath with
      | some relPath, some c => objSet fs (destination ++ relPath) c
      | _, _ => fs)
    fs

/-! ## The PopulateBuffer class -/

/-- The fields of a `PopulateBuffer` object that its methods read or write. -/
structure PopulateBuffer where
  repoPath : Path
  branch : String
  itemPaths : List TrackedItem
  configFiles : ConfigFiles
  renamedFiles : List Path
  deriving DecidableEq, Repr

/-- The state carried through the item loop of `populateBufferForRepo`: the object, the file
system and the `diffs` accumulator. -/
structure LoopState where
  self : PopulateBuffer
  fs : FS
  diffs : Diffs
  deriving DecidableEq, Repr

/-- The local `shadowRepoBranchPath` of `populateBufferForRepo` (line 124):
`path.join(SHADOW_REPO, path.join(this.repoPath, this.branch))`. -/
def shadowBranchPath (env : Env) (self : PopulateBuffer) : Path :=
  env.SHADOW_REPO ++ (self.repoPath ++ [self.branch])

/-- The local `originalsRepoBranchPath` of `populateBufferForRepo` (line 125):
`path.join(ORIGINALS_REPO, path.join(this.repoPath, this.branch))`. -/
def originalsBranchPath (env : Env) (self : PopulateBuffer) : Path :=
  env.ORIGINALS_REPO ++ (self.repoPath ++ [self.branch])

/-- Lines 135-149: the content diff of an item that is in `configFiles` and not binary. -/
def contentDiff (env : Env) (self : PopulateBuffer) (fs : FS) (itemPath : TrackedItem) :
    Except JsError String := do
  let shadowRepoBranchPath := shadowBranchPath env self
  let shadowFilePath := shadowRepoBranchPath ++ itemPath.rel_path
  let shadowExists := existsSync fs shadowFilePath
  if jsIn self.configFiles itemPath.rel_path && !itemPath.is_binary then
    let previousContent ←
      if shadowExists then readFileSync fs shadowFilePath
      else if itemPath.size > env.FILE_SIZE_AS_COPY then readFileSync fs itemPath.file_path
      else pure ""
    let latestContent ← readFileSync fs itemPath.file_path
    pure (env.makePatch previousContent latestContent)
  else
    pure ""

/-- What lines 151-171 leave behind: the object, the file system, `diff` and `isRename`. -/
structure RenameOutcome where
  self : PopulateBuffer
  fs : FS
  diff : DiffValue
  isRename : Bool
  deriving DecidableEq, Repr

/-- Lines 151-171: rename inference for an item that is not in `configFiles`, has no shadow
copy and is not binary. -/
def renameBranch (env : Env) (self : PopulateBuffer) (fs : FS) (itemPath : TrackedItem)
    (diff : DiffValue) : Except JsError RenameOutcome := do
  let repoBranchPath := self.repoPath ++ [self.branch]
  let shadowRepoBranchPath := shadowBranchPath env self
  let shadowFilePath := shadowRepoBranchPath ++ itemPath.rel_path
  let shadowExists := existsSync fs shadowFilePath
  if !jsIn self.configFiles itemPath.rel_path && !shadowExists && !itemPath.is_binary then
    let renameResult ← checkForRename env fs self.repoPath shadowRepoBranchPath itemPath.file_path
    if renameResult.isRename then
      let oldRelPath := renameResult.shadowFilePath.drop shadowRepoBranchPath.length
      let oldAbsPath := repoBranchPath ++ oldRelPath
      let newAbsPath := repoBranchPath ++ itemPath.rel_path
      let isRename := decide (oldRelPath ≠ itemPath.rel_path)
      if isRename then
        let fs1 ← unlinkSync fs renameResult.shadowFilePath
        pure
          { self := { self with renamedFiles := self.renamedFiles ++ [oldRelPath] },
            fs := fs1,
            diff := .renameJSON oldAbsPath newAbsPath oldRelPath itemPath.rel_path,
            isRename := isRename }
      else
        pure { self := self, fs := fs, diff := diff, isRename := isRename }
    else
      pure { self := self, fs := fs, diff := diff, isRename := false }
  else
    pure { self := self, fs := fs, diff := diff, isRename := false }

/-- Lines 172-173: the flag `isNewFile`, computed after the rename step. -/
def isNewFile (env : Env) (itemPath : TrackedItem) (o : RenameOutcome) : Bool :=
  let shadowFilePath := shadowBranchPath env o.self ++ itemPath.rel_path
  let originalFilePath := originalsBranchPath env o.self ++ itemPath.rel_path
  !jsIn o.self.configFiles itemPath.rel_path && !o.isRename &&
    !existsSync o.fs originalFilePath && !existsSync o.fs shadowFilePath

/-- Lines 184-190: the record stored in `diffs[itemPath.rel_path]`. -/
def itemRecord (env : Env) (itemPath : TrackedItem) (diff : DiffValue) (isRename isNew : Bool) :
    DiffRecord :=
  { diff := diff,
    is_rename := some isRename,
    is_new_file := some isNew,
    is_binary := some itemPath.is_binary,
    is_deleted := none,
    created_at := some (env.dateFormat itemPath.modified_at) }

/-- Lines 172-191: new-file handling, shadow refresh and emission of the record. -/
def finishItem (env : Env) (diffs : Diffs) (itemPath : TrackedItem) (o : RenameOutcome) :
    LoopState :=
  let shadowRepoBranchPath := shadowBranchPath env o.self
  let originalsRepoBranchPath := originalsBranchPath env o.self
  let isNewFile := isNewFile env itemPath o
  let diff := if isNewFile then DiffValue.text "" else o.diff
  let fs1 :=
    if isNewFile then copyFilesTo o.fs o.self.repoPath [itemPath.file_path] originalsRepoBranchPath
    else o.fs
  let fs2 := copyFilesTo fs1 o.self.repoPath [itemPath.file_path] shadowRepoBranchPath
  let diffs1 :=
    if diff.truthy || isNewFile then
      objSet diffs itemPath.rel_path (itemRecord env itemPath diff o.isRename isNewFile)
    else diffs
  { self := o.self, fs := fs2, diffs := diffs1 }

/-- One iteration of the loop of `populateBufferForRepo` (lines 128-191). -/
def populateItem (env : Env) (st : LoopState) (itemPath : TrackedItem) :
    Except JsError LoopState := do
  let diff ← contentDiff env st.self st.fs itemPath
  let o ← renameBranch env st.self st.fs itemPath (.text diff)
  pure (finishItem env st.diffs itemPath o)

/-- The loop `for (const itemPath of this.itemPaths)`. -/
def populateLoop (env : Env) : List TrackedItem → LoopState → Except JsError LoopState
  | [], st => .ok st
  | itemPath :: rest, st =>
    match populateItem env st itemPath with
    | .ok st1 => populateLoop env rest st1
    | .error e => .error e

/-- The method `populateBufferForRepo()`: the final object and file system, and the returned
`diffs`. -/
def populateBufferForRepo (env : Env) (self : PopulateBuffer) (fs : FS) :
    Except JsError LoopState :=
  populateLoop env self.itemPaths { self := self, fs := fs, diffs := [] }

/-- The record `getDiffForDeletedFiles` stores for a deleted path. -/
def deletedRecord : DiffRecord :=
  { diff := .null, is_rename := none, is_new_file := none, is_binary := none,
    is_deleted := some true, created_at := none }

/-- The body of the `forEach` of `getDiffForDeletedFiles` (lines 217-235). -/
def deletedStep (env : Env) (self : PopulateBuffer) (activeRelPaths : List Path)
    (st : FS × Diffs) (relPath : Path) : FS × Diffs :=
  let repoBranchPath := self.repoPath ++ [self.branch]
  let fileBranchPath := repoBranchPath ++ relPath
  let cacheFilePath := env.DELETED_REPO ++ fileBranchPath
  let shadowFilePath := env.SHADOW_REPO ++ fileBranchPath
  if decide (relPath ∈ activeRelPaths) || decide (relPath ∈ self.renamedFiles) ||
      existsSync st.1 cacheFilePath || !existsSync st.1 shadowFilePath then
    st
  else
    let diffs := objSet st.2 relPath deletedRecord
    let cacheRepoPath := env.DELETED_REPO ++ self.repoPath
    (copyFilesTo st.1 self.repoPath [shadowFilePath] cacheRepoPath, diffs)

/-- The method `getDiffForDeletedFiles()`: the resulting file system and the returned
`diffs`. -/
def getDiffForDeletedFiles (env : Env) (self : PopulateBuffer) (fs : FS) : FS × Diffs :=
  (objKeys self.configFiles).foldl
    (deletedStep env self (self.itemPaths.map (fun itemPath => itemPath.rel_path))) (fs, [])

/-! ## detectBranchChange -/

/-- Own-property read on a dictionary with string keys; `none` is "no own key". -/
def strGet {β : Type} : List (String × β) → String → Option β
  | [], _ => none
  | (q, v) :: rest, k => if q = k then some v else strGet rest k

/-- A string-valued property seen through JavaScript truthiness: `undefined`, `null` and the
empty string are falsy. -/
def truthyString : Option String → Option String
  | some s => if s = "" then none else some s
  | none => none

/-- One entry of `configJSON.repos`. -/
structure ConfigRepo where
  is_disconnected : Bool
  email : Option String
  branches : List (String × ConfigFiles)
  deriving DecidableEq, Repr

/-- One entry of the identity store `user.yml`. -/
structure User where
  access_token : Option String
  deriving DecidableEq, Repr

/-- The identity store: e-mail to user entry. -/
abbrev Users := List (String × User)

/-- The configuration `config.yml`. -/
structure ConfigJSON where
  repos : List (Path × ConfigRepo)
  deriving DecidableEq, Repr

/-- A call `detectBranchChange` makes to a collaborator outside the two source files. -/
inductive Call where
  | putLogEvent (repoPath : Path) (userEmail : String)
  | uploadRepo (repoPath : Path) (branch : String) (accessToken : String) (email : String)
  | syncRepo (repoPath : Path) (accessToken : String)
  deriving DecidableEq, Repr

/-- The collaborators of `detectBranchChange`, acting on a world `W` (disk, git state, remote
service): `current-git-branch` (`none` is a falsy answer), `fs.existsSync`,
`initUtils.getSyncablePaths`, `initUtils.uploadRepo`, `syncRepo` and `putLogEvent`. -/
structure Host (W : Type) where
  DEFAULT_BRANCH : String
  getBranchName : W → Path → Option String
  existsSync : W → Path → Bool
  getSyncablePaths : W → Path → List TrackedItem
  uploadRepo : W → Path → String → String → List TrackedItem → String → W
  syncRepo : W → Path → String → W
  putLogEvent : W → Path → String → W

/-- The state of the loop of `detectBranchChange`: the world, the collaborator calls made so
far, and `readyRepos`. -/
structure DetectState (W : Type) where
  world : W
  calls : List Call
  readyRepos : List (Path × String)
  deriving DecidableEq

/-- The read `users[email]` of line 258: the own entry, or for an e-mail that is a property
name inherited from `Object.prototype` the inherited member, which has no `access_token`;
`none` is `undefined`. -/
def usersLookup (users : Users) (userEmail : String) : Option User :=
  match strGet users userEmail with
  | some user => some user
  | none =>
    if userEmail ∈ objectPrototypeNames then some { access_token := none } else none

/-- The test `branch in configRepo.branches` of line 273 with the read of line 285: the own
mapping, or for a branch name inherited from `Object.prototype` the inherited member, whose
`Object.values` is empty; `none` is "not in". -/
def branchLookup (branches : List (String × ConfigFiles)) (branch : String) :
    Option ConfigFiles :=
  match strGet branches branch with
  | some configFiles => some configFiles
  | none => if branch ∈ objectPrototypeNames then some [] else none

/-- The test `Object.values(configFiles).every(element => element === null)` of line 287. -/
def shouldSyncBranch (configFiles : ConfigFiles) : Bool :=
  (objKeys configFiles).all (fun k => decide (objGet configFiles k = some none))

/-- Line 264: `getBranchName({altPath: repoPath}) || DEFAULT_BRANCH`. -/
def activeBranch {W : Type} (host : Host W) (w : W) (repoPath : Path) : String :=
  (truthyString (host.getBranchName w repoPath)).getD host.DEFAULT_BRANCH

/-- The body of the loop of `detectBranchChange` (lines 251-292) for one repository. -/
def detectRepo {W : Type} (env : Env) (host : Host W) (users : Users) (st : DetectState W)
    (repoPath : Path) (configRepo : ConfigRepo) : Except JsError (DetectState W) :=
  if configRepo.is_disconnected then .ok st
  else
    match truthyString configRepo.email with
    | none => .ok st
    | some userEmail =>
      match (usersLookup users userEmail) with
      | none => .error .typeError
      | some user =>
        match truthyString user.access_token with
        | none =>
          .ok { st with
            world := host.putLogEvent st.world repoPath userEmail,
            calls := st.calls ++ [.putLogEvent repoPath userEmail] }
        | some accessToken =>
          let branch := activeBranch host st.world repoPath
          let shadowRepo := env.SHADOW_REPO ++ repoPath
          if !host.existsSync st.world repoPath || !host.existsSync st.world shadowRepo then
            .ok st
          else
            let originalsRepoBranchPath := env.ORIGINALS_REPO ++ (repoPath ++ [branch])
            let originalsRepoExists := host.existsSync st.world originalsRepoBranchPath
            match branchLookup configRepo.branches branch with
            | none =>
              if originalsRepoExists then
                let itemPaths := host.getSyncablePaths st.world repoPath
                .ok { st with
                  world := host.uploadRepo st.world repoPath branch accessToken itemPaths
                    userEmail,
                  calls := st.calls ++ [.uploadRepo repoPath branch accessToken userEmail] }
              else
                .ok { st with
                  world := host.syncRepo st.world repoPath accessToken,
                  calls := st.calls ++ [.syncRepo repoPath accessToken] }
            | some configFiles =>
              let st1 : DetectState W :=
                if shouldSyncBranch configFiles then
                  let itemPaths := host.getSyncablePaths st.world repoPath
                  { st with
                    world := host.uploadRepo st.world repoPath branch accessToken itemPaths
                      userEmail,
                    calls := st.calls ++ [.uploadRepo repoPath branch accessToken userEmail] }
                else st
              .ok { st1 with readyRepos := objSet st1.readyRepos repoPath branch }

/-- The loop `for (const repoPath of Object.keys(configJSON.repos))`. -/
def detectLoop {W : Type} (env : Env) (host : Host W) (users : Users)
    (repos : List (Path × ConfigRepo)) : List Path → DetectState W →
    Except JsError (DetectState W)
  | [], st => .ok st
  | repoPath :: rest, st =>
    match objGet repos repoPath with
    | none => .error .typeError
    | some configRepo =>
      match detectRepo env host users st repoPath configRepo with
      | .ok st1 => detectLoop env host users repos rest st1
      | .error e => .error e

/-- The function `detectBranchChange()`; `users` is `none` when `readYML(USER_PATH)` is
falsy, in which case `{}` is used. -/
def detectBranchChange {W : Type} (env : Env) (host : Host W) (configJSON : ConfigJSON)
    (users : Option Users) (w : W) : Except JsError (DetectState W) :=
  detectLoop env host (users.getD []) configJSON.repos (objKeys configJSON.repos)
    { world := w, calls := [], readyRepos := [] }

/-! ## Notions used in the statements -/

/-- A shadow file counted by `checkForRename`: a non-binary file strictly below the shadow
branch root at whose live counterpart neither a file nor a directory exists and whose
similarity with `content` is above the threshold. -/
def IsRenameMatch (env : Env) (fs : FS) (repoPath shadowRepoBranchPath : Path) (content : String)
    (p : Path) : Prop :=
  ∃ c, objGet fs p = some c ∧ shadowRepoBranchPath <+: p ∧ p ≠ shadowRepoBranchPath ∧
    env.isBinaryFileSync c = false ∧
    existsSyncLive env fs (repoPath ++ p.drop shadowRepoBranchPath.length) = false ∧
    env.SEQUENCE_MATCHER_RATIO < env.similarity content c

/-- The deleted-quarantine path the guard of `getDiffForDeletedFiles` checks for `relPath`. -/
def cacheFilePathOf (env : Env) (self : PopulateBuffer) (relPath : Path) : Path :=
  env.DELETED_REPO ++ ((self.repoPath ++ [self.branch]) ++ relPath)

/-- The shadow path of `relPath`. -/
def shadowFilePathOf (env : Env) (self : PopulateBuffer) (relPath : Path) : Path :=
  env.SHADOW_REPO ++ ((self.repoPath ++ [self.branch]) ++ relPath)

/-- The four conditions of the deletion sweep, read on the file system `fs`. -/
def DeletionConfirmed (env : Env) (self : PopulateBuffer) (fs : FS) (relPath : Path) : Prop :=
  relPath ∉ self.itemPaths.map (fun itemPath => itemPath.rel_path) ∧
    relPath ∉ self.renamedFiles ∧
    existsSync fs (cacheFilePathOf env self relPath) = false ∧
    existsSync fs (shadowFilePathOf env self relPath) = true

instance (env : Env) (self : PopulateBuffer) (fs : FS) (relPath : Path) :
    Decidable (DeletionConfirmed env self fs relPath) := by
  unfold DeletionConfirmed
  infer_instance

/-- Two directories neither of which lies inside the other. -/
def Apart (a b : Path) : Prop :=
  ¬ a <+: b ∧ ¬ b <+: a

instance (a b : Path) : Decidable (Apart a b) := by
  unfold Apart
  infer_instance

/-- The live repository, the shadow tree and the originals tree are separate directories. -/
def TreesApart (env : Env) (repoPath : Path) : Prop :=
  Apart repoPath env.SHADOW_REPO ∧ Apart repoPath env.ORIGINALS_REPO ∧
    Apart env.SHADOW_REPO env.ORIGINALS_REPO

instance (env : Env) (repoPath : Path) : Decidable (TreesApart env repoPath) := by
  unfold TreesApart
  infer_instance

/-- The standing assumptions on a pass: `itemPaths` lists live files of the repository, each
at `repoPath/rel_path` and each relative path once, and the live repository, the shadow tree
and the originals tree are separate directories. -/
def PassOK (env : Env) (self : PopulateBuffer) (fs : FS) : Prop :=
  (∀ itemPath ∈ self.itemPaths,
      itemPath.file_path = self.repoPath ++ itemPath.rel_path ∧
        existsSync fs itemPath.file_path = true) ∧
    (self.itemPaths.map (fun itemPath => itemPath.rel_path)).Nodup ∧
    TreesApart env self.repoPath

instance (env : Env) (self : PopulateBuffer) (fs : FS) : Decidable (PassOK env self fs) := by
  unfold PassOK
  infer_instance

/-- Every connected repository that names an e-mail has an entry in the identity store. -/
def IdentitiesKnown (configJSON : ConfigJSON) (users : Users) : Prop :=
  ∀ repoPath ∈ objKeys configJSON.repos, ∀ configRepo,
    objGet configJSON.repos repoPath = some configRepo →
    configRepo.is_disconnected = false →
    ∀ userEmail, truthyString configRepo.email = some userEmail →
      (strGet users userEmail).isSome = true

/-! ## Auxiliary notions of the proofs -/

/-- The test the listener applies to one walked file. -/
def listenerCounts (env : Env) (fs : FS) (repoPath shadowRepoBranchPath : Path) (content : String)
    (file : Path × String) : Bool :=
  !env.isBinaryFileSync file.2 &&
    (!existsSyncLive env fs (repoPath ++ file.1.drop shadowRepoBranchPath.length) &&
      decide (env.SEQUENCE_MATCHER_RATIO < env.similarity content file.2))

/-- What holds after the sweep has gone through the keys `done`, starting from `fs`. -/
structure SweepInv (env : Env) (pb : PopulateBuffer) (fs : FS) (done : List Path)
    (st : FS × Diffs) : Prop where
  diffs : ∀ k, objGet st.2 k =
    if k ∈ done ∧ DeletionConfirmed env pb fs k then some deletedRecord else none
  shadow : ∀ k, objGet st.1 (shadowFilePathOf env pb k) =
    objGet fs (shadowFilePathOf env pb k)
  cache : ∀ k, existsSync st.1 (cacheFilePathOf env pb k) =
    (existsSync fs (cacheFilePathOf env pb k) || (objGet st.2 k).isSome)
  copied : ∀ k, objGet st.2 k ≠ none →
    objGet st.1 (cacheFilePathOf env pb k) = objGet fs (shadowFilePathOf env pb k)
  nodup : (st.2.map Prod.fst).Nodup

/-- The final value of `(shadowFilePath, matchingFilesCount)` after the walk of
`checkForRename` for a live file holding `content`. -/
def matchScan (env : Env) (self : PopulateBuffer) (fs : FS) (content : String) : Path × Nat :=
  (walkSync fs (shadowBranchPath env self)).foldl
    (renameListener env fs self.repoPath (shadowBranchPath env self) content) ([], 0)

/-- The guard of line 151 together with a positive answer of `checkForRename`, for an item
whose live content is `content`. -/
def RenameApplies (env : Env) (self : PopulateBuffer) (fs : FS) (itemPath : TrackedItem)
    (content : String) : Prop :=
  jsIn self.configFiles itemPath.rel_path = false ∧
    existsSync fs (shadowBranchPath env self ++ itemPath.rel_path) = false ∧
    itemPath.is_binary = false ∧ content ≠ "" ∧ (matchScan env self fs content).2 = 1

instance (env : Env) (self : PopulateBuffer) (fs : FS) (itemPath : TrackedItem)
    (content : String) : Decidable (RenameApplies env self fs itemPath content) := by
  unfold RenameApplies
  infer_instance

/-- The text `diff` holds after lines 135-149, for an item whose live content is `content`. -/
def contentDiffText (env : Env) (self : PopulateBuffer) (fs : FS) (itemPath : TrackedItem)
    (content : String) : String :=
  if jsIn self.configFiles itemPath.rel_path && !itemPath.is_binary then
    env.makePatch
      (match objGet fs (shadowBranchPath env self ++ itemPath.rel_path) with
        | some prev => prev
        | none => if itemPath.size > env.FILE_SIZE_AS_COPY then content else "")
      content
  else ""

/-- The relative path, below the shadow branch root, of the file `matchScan` ends on. -/
def matchedRelPath (env : Env) (self : PopulateBuffer) (fs : FS) (content : String) : Path :=
  (matchScan env self fs content).1.drop (shadowBranchPath env self).length

/-- What lines 135-171 leave behind for an item whose live content is `content`. -/
def stepOutcome (env : Env) (self : PopulateBuffer) (fs : FS) (itemPath : TrackedItem)
    (content : String) : RenameOutcome :=
  if RenameApplies env self fs itemPath content then
    { self := { self with
        renamedFiles := self.renamedFiles ++ [matchedRelPath env self fs content] },
      fs := objErase fs (matchScan env self fs content).1,
      diff := .renameJSON
        ((self.repoPath ++ [self.branch]) ++ matchedRelPath env self fs content)
        ((self.repoPath ++ [self.branch]) ++ itemPath.rel_path)
        (matchedRelPath env self fs content)
        itemPath.rel_path,
      isRename := true }
  else
    { self := self, fs := fs, diff := .text (contentDiffText env self fs itemPath content),
      isRename := false }

/-- What one iteration on `itemPath` (live content `c`) keeps and changes, from `st` to `st1`. -/
structure StepFrame (env : Env) (st : LoopState) (itemPath : TrackedItem) (c : String)
    (st1 : LoopState) : Prop where
  repoPath : st1.self.repoPath = st.self.repoPath
  branch : st1.self.branch = st.self.branch
  configFiles : st1.self.configFiles = st.self.configFiles
  itemPaths : st1.self.itemPaths = st.self.itemPaths
  renamed : ∀ x ∈ st.self.renamedFiles, x ∈ st1.self.renamedFiles
  outside : ∀ q, ¬ env.SHADOW_REPO <+: q → ¬ env.ORIGINALS_REPO <+: q →
    objGet st1.fs q = objGet st.fs q
  originals : ∀ r, r ≠ itemPath.rel_path →
    objGet st1.fs (originalsBranchPath env st.self ++ r) =
      objGet st.fs (originalsBranchPath env st.self ++ r)
  shadow : ∀ r, r ≠ itemPath.rel_path → existsSync st.fs (st.self.repoPath ++ r) = true →
    objGet st1.fs (shadowBranchPath env st.self ++ r) =
      objGet st.fs (shadowBranchPath env st.self ++ r)
  shadowNone : ∀ r, r ≠ itemPath.rel_path →
    objGet st.fs (shadowBranchPath env st.self ++ r) = none →
    objGet st1.fs (shadowBranchPath env st.self ++ r) = none
  diffs : ∀ r, r ≠ itemPath.rel_path → objGet st1.diffs r = objGet st.diffs r
  synced : objGet st1.fs (shadowBranchPath env st.self ++ itemPath.rel_path) = some c
  erased : RenameApplies env st.self st.fs itemPath c →
    objGet st1.fs (matchScan env st.self st.fs c).1 = none

/-- What holds of the loop state `st` once the items `done` have been processed, in a pass
of the object `pb` started on the file system `fs`. -/
structure LoopInv (env : Env) (pb : PopulateBuffer) (fs : FS) (done : List TrackedItem)
    (st : LoopState) : Prop where
  repoPath : st.self.repoPath = pb.repoPath
  branch : st.self.branch = pb.branch
  configFiles : st.self.configFiles = pb.configFiles
  itemPaths : st.self.itemPaths = pb.itemPaths
  outside : ∀ q, ¬ env.SHADOW_REPO <+: q → ¬ env.ORIGINALS_REPO <+: q →
    objGet st.fs q = objGet fs q
  originals : ∀ r, r ∉ done.map (fun itemPath => itemPath.rel_path) →
    objGet st.fs (originalsBranchPath env pb ++ r) = objGet fs (originalsBranchPath env pb ++ r)
  shadow : ∀ r, r ∉ done.map (fun itemPath => itemPath.rel_path) →
    existsSync fs (pb.repoPath ++ r) = true →
    objGet st.fs (shadowBranchPath env pb ++ r) = objGet fs (shadowBranchPath env pb ++ r)
  diffs : ∀ r, r ∉ done.map (fun itemPath => itemPath.rel_path) → objGet st.diffs r = none
  synced : ∀ itemPath ∈ done,
    objGet st.fs (shadowBranchPath env pb ++ itemPath.rel_path) = objGet fs itemPath.file_path

/-- What processing the items `todo` keeps, from `st` to `st1`. -/
structure LoopFrame (env : Env) (pb : PopulateBuffer) (todo : List TrackedItem)
    (st st1 : LoopState) : Prop where
  diffs : ∀ r, r ∉ todo.map (fun itemPath => itemPath.rel_path) →
    objGet st1.diffs r = objGet st.diffs r
  originals : ∀ r, r ∉ todo.map (fun itemPath => itemPath.rel_path) →
    objGet st1.fs (originalsBranchPath env pb ++ r) = objGet st.fs (originalsBranchPath env pb ++ r)
  shadowNone : ∀ r, r ∉ todo.map (fun itemPath => itemPath.rel_path) →
    objGet st.fs (shadowBranchPath env pb ++ r) = none →
    objGet st1.fs (shadowBranchPath env pb ++ r) = none
  renamed : ∀ x ∈ st.self.renamedFiles, x ∈ st1.self.renamedFiles

/-! ## Sample data -/

/-- A sample environment: similarity is 100 for identical contents and 0 otherwise, the
threshold is 80, no content is binary, and the patch of equal texts is empty. -/
def sampleEnv : Env :=
  { SHADOW_REPO := [".shadow"],
    ORIGINALS_REPO := [".originals"],
    DELETED_REPO := [".deleted"],
    FILE_SIZE_AS_COPY := 100,
    SEQUENCE_MATCHER_RATIO := 80,
    similarity := fun a b => if a = b then 100 else 0,
    isBinaryFileSync := fun _ => false,
    makePatch := fun a b => if a = b then "" else b,
    dateFormat := fun _ => "",
    directories := [] }

/-- A repository with no live file and one configured path, `gone.txt`. -/
def sweepSelf : PopulateBuffer :=
  { repoPath := ["repo"], branch := "main", itemPaths := [],
    configFiles := [(["gone.txt"], some 7)], renamedFiles := [] }

/-- A file system in which `gone.txt` has a shadow copy and no quarantine copy. -/
def sweepFs : FS :=
  [([".shadow", "repo", "main", "gone.txt"], "old text")]

/-- A file system in which `gone.txt` has a shadow copy and already a quarantine copy. -/
def quarantinedFs : FS :=
  [([".shadow", "repo", "main", "gone.txt"], "old text"),
   ([".deleted", "repo", "main", "gone.txt"], "old text")]

/-- A file system with the live file `new.txt` and the orphan shadow file `old.txt`, both
holding "abc". -/
def renameFs : FS :=
  [(["repo", "new.txt"], "abc"), ([".shadow", "repo", "main", "old.txt"], "abc")]

/-- The empty live file `new.txt`. -/
def emptyItem : TrackedItem :=
  { file_path := ["repo", "new.txt"], rel_path := ["new.txt"], size := 0, modified_at := 0,
    created_at := 0, is_binary := false }

/-- A repository whose only live file is the empty `new.txt`; nothing is configured. -/
def emptySelf : PopulateBuffer :=
  { repoPath := ["repo"], branch := "main", itemPaths := [emptyItem], configFiles := [],
    renamedFiles := [] }

/-- A file system with the empty live file `new.txt` and the empty orphan shadow file
`old.txt`. -/
def emptyFs : FS :=
  [(["repo", "new.txt"], ""), ([".shadow", "repo", "main", "old.txt"], "")]

/-- The live file `new.txt`, holding "abc". -/
def renameItem : TrackedItem :=
  { file_path := ["repo", "new.txt"], rel_path := ["new.txt"], size := 3, modified_at := 0,
    created_at := 0, is_binary := false }

/-- A repository whose only live file is `new.txt`; nothing is configured. -/
def renameSelf : PopulateBuffer :=
  { repoPath := ["repo"], branch := "main", itemPaths := [renameItem], configFiles := [],
    renamedFiles := [] }

/-- A file system with the live file `new.txt` and two orphan shadow files with the same
content. -/
def ambiguousFs : FS :=
  [(["repo", "new.txt"], "abc"), ([".shadow", "repo", "main", "old1.txt"], "abc"),
   ([".shadow", "repo", "main", "old2.txt"], "abc")]

/-- The configured text file `a.txt`. -/
def textItem : TrackedItem :=
  { file_path := ["repo", "a.txt"], rel_path := ["a.txt"], size := 1, modified_at := 0,
    created_at := 0, is_binary := false }

/-- The binary file `img.bin`. -/
def binaryItem : TrackedItem :=
  { file_path := ["repo", "img.bin"], rel_path := ["img.bin"], size := 1, modified_at := 0,
    created_at := 0, is_binary := true }

/-- A repository with the configured `a.txt` and the unconfigured binary `img.bin`. -/
def trackedSelf : PopulateBuffer :=
  { repoPath := ["repo"], branch := "main", itemPaths := [textItem, binaryItem],
    configFiles := [(["a.txt"], some 1)], renamedFiles := [] }

/-- A file system in which the shadow copy of `a.txt` equals the live file. -/
def trackedFs : FS :=
  [(["repo", "a.txt"], "x"), (["repo", "img.bin"], "b"),
   ([".shadow", "repo", "main", "a.txt"], "x")]

/-- A host on the trivial world in which every path exists and git reports no branch name. -/
def sampleHost : Host Unit :=
  { DEFAULT_BRANCH := "main",
    getBranchName := fun _ _ => none,
    existsSync := fun _ _ => true,
    getSyncablePaths := fun _ _ => [],
    uploadRepo := fun _ _ _ _ _ _ => (),
    syncRepo := fun _ _ _ => (),
    putLogEvent := fun _ _ _ => () }

/-- A connected repository whose branch `main` maps its only file to `null`. -/
def unsyncedRepo : ConfigRepo :=
  { is_disconnected := false, email := some "dev@example.com",
    branches := [("main", [(["a.txt"], none)])] }

/-- A configuration with the single repository `unsyncedRepo`. -/
def unsyncedConfig : ConfigJSON :=
  { repos := [(["repo"], unsyncedRepo)] }

/-- An identity store with a token for `dev@example.com`. -/
def sampleUsers : Users :=
  [("dev@example.com", { access_token := some "token" })]

/-- An identity store that has no entry for `dev@example.com`. -/
def otherUsers : Users :=
  [("other@example.com", { access_token := some "token" })]

/-- A configuration with two connected repositories, both with an assigned file on `main`;
the first names `dev@example.com`, the second `other@example.com`. -/
def twoRepoConfig : ConfigJSON :=
  { repos :=
      [(["first"],
        { is_disconnected := false, email := some "dev@example.com",
          branches := [("main", [(["a.txt"], some 1)])] }),
       (["second"],
        { is_disconnected := false, email := some "other@example.com",
          branches := [("main", [(["b.txt"], some 2)])] })] }

/-- The new live file `toString`, holding "abc". -/
def inheritedItem : TrackedItem :=
  { file_path := ["repo", "toString"], rel_path := ["toString"], size := 3, modified_at := 0,
    created_at := 0, is_binary := false }

/-- A repository whose only live file is `toString`; only `a.txt` is configured. -/
def inheritedSelf : PopulateBuffer :=
  { repoPath := ["repo"], branch := "main", itemPaths := [inheritedItem],
    configFiles := [(["a.txt"], some 1)], renamedFiles := [] }

/-- A file system with the live file `toString` and empty snapshot trees. -/
def inheritedFs : FS :=
  [(["repo", "toString"], "abc")]

/-! ## Dictionary and file-system lemmas -/

theorem objGet_objSet {β : Type} (obj : List (Path × β)) (k : Path) (v : β) (q : Path) :
    objGet (objSet obj k v) q = if k = q then some v else objGet obj q := by
  induction obj with
  | nil => simp [objSet, objGet]
  | cons e rest ih =>
    obtain ⟨a, w⟩ := e
    by_cases h : a = k
    · subst h
      by_cases h2 : a = q <;> simp [objSet, objGet, h2]
    · by_cases h2 : a = q
      · subst h2
        simp [objSet, objGet, h, Ne.symm h]
      · simp [objSet, objGet, h, h2, ih]

theorem objSet_same {β : Type} (obj : List (Path × β)) (k : Path) (v : β)
    (h : objGet obj k = some v) : objSet obj k v = obj := by
  induction obj with
  | nil => simp [objGet] at h
  | cons e rest ih =>
    obtain ⟨a, w⟩ := e
    by_cases h1 : a = k
    · subst h1
      simp [objGet] at h
      simp [objSet, h]
    · simp [objGet, h1] at h
      simp [objSet, h1, ih h]

theorem objGet_objErase {β : Type} (obj : List (Path × β)) (k q : Path) :
    objGet (objErase obj k) q = if k = q then none else objGet obj q := by
  induction obj with
  | nil => simp [objGet, objErase]
  | cons e rest ih =>
    obtain ⟨a, w⟩ := e
    by_cases h1 : a = k
    · subst h1
      by_cases h2 : a = q
      · subst h2
        simp [objErase, ih]
      · simp [objErase, ih, h2, objGet]
    · by_cases h2 : a = q
      · subst h2
        simp [objErase, h1, objGet, Ne.symm h1]
      · simp [objErase, h1, objGet, h2, ih]

theorem mem_objKeys {β : Type} (obj : List (Path × β)) (k : Path) :
    k ∈ objKeys obj ↔ objGet obj k ≠ none := by
  induction obj with
  | nil => simp [objKeys, objGet]
  | cons e rest ih =>
    obtain ⟨a, w⟩ := e
    by_cases h : a = k
    · subst h
      simp [objKeys, objGet]
    · simp [objKeys, objGet, h, ih, Ne.symm h]

theorem nodup_objKeys {β : Type} (obj : List (Path × β)) : (objKeys obj).Nodup := by
  induction obj with
  | nil => simp [objKeys]
  | cons e rest ih =>
    obtain ⟨a, w⟩ := e
    simp only [objKeys, List.nodup_cons]
    refine ⟨?_, ih.filter _⟩
    simp [List.mem_filter]

theorem existsSync_eq_true (fs : FS) (p : Path) :
    existsSync fs p = true ↔ ∃ c, objGet fs p = some c := by
  simp [existsSync, objHas, Option.isSome_iff_exists]

theorem existsSync_eq_false (fs : FS) (p : Path) :
    existsSync fs p = false ↔ objGet fs p = none := by
  simp [existsSync, objHas]

theorem existsSync_of_existsSyncLive_false (env : Env) (fs : FS) (p : Path)
    (h : existsSyncLive env fs p = false) : existsSync fs p = false := by
  unfold existsSyncLive at h
  rw [Bool.or_eq_false_iff] at h
  exact h.1

theorem jsIn_of_objHas {β : Type} (obj : List (Path × β)) (k : Path)
    (h : objHas obj k = true) : jsIn obj k = true := by
  unfold jsIn
  rw [h, Bool.true_or]

theorem objHas_of_jsIn_false {β : Type} (obj : List (Path × β)) (k : Path)
    (h : jsIn obj k = false) : objHas obj k = false := by
  unfold jsIn at h
  rw [Bool.or_eq_false_iff] at h
  exact h.1

theorem mem_walkSync (fs : FS) (root : Path) (e : Path × String) :
    e ∈ walkSync fs root ↔ objGet fs e.1 = some e.2 ∧ root <+: e.1 ∧ e.1 ≠ root := by
  obtain ⟨p, c⟩ := e
  simp only [walkSync, List.mem_filterMap, List.mem_filter, mem_objKeys, decide_eq_true_eq,
    Option.map_eq_some']
  constructor
  · rintro ⟨a, ⟨_, h2⟩, b, h3, h4⟩
    cases h4
    exact ⟨h3, h2⟩
  · rintro ⟨h1, h2⟩
    exact ⟨p, ⟨by simp [h1], h2⟩, c, h1, rfl⟩

theorem nodup_walkSync (fs : FS) (root : Path) : (walkSync fs root).Nodup := by
  unfold walkSync
  refine List.Nodup.filterMap ?_ ((nodup_objKeys fs).filter _)
  intro a b x hx hy
  simp only [Option.mem_def, Option.map_eq_some'] at hx hy
  obtain ⟨c, _, hc⟩ := hx
  obtain ⟨d, _, hd⟩ := hy
  rw [← hc] at hd
  exact (congrArg Prod.fst hd).symm

theorem length_filter_eq_one_iff {α : Type} (l : List α) (hl : l.Nodup) (P : α → Bool) :
    (l.filter P).length = 1 ↔ ∃! x, x ∈ l ∧ P x = true := by
  constructor
  · intro h
    obtain ⟨a, ha⟩ := List.length_eq_one.mp h
    have hmem : ∀ y, y ∈ l ∧ P y = true ↔ y = a := by
      intro y
      rw [← List.mem_filter, ha, List.mem_singleton]
    exact ⟨a, (hmem a).2 rfl, fun y hy => (hmem y).1 hy⟩
  · rintro ⟨x, hx, huniq⟩
    have hnd : (l.filter P).Nodup := hl.filter _
    have hall : ∀ y ∈ l.filter P, y = x := fun y hy => huniq y (List.mem_filter.mp hy)
    have hxm : x ∈ l.filter P := List.mem_filter.mpr hx
    match hf : l.filter P with
    | [] => rw [hf] at hxm; simp at hxm
    | [_] => rfl
    | a :: b :: t =>
      rw [hf] at hnd hall
      have h1 := hall a (by simp)
      have h2 := hall b (by simp)
      simp [h1, h2] at hnd

/-! ## checkForRename -/

theorem renameListener_eq (env : Env) (fs : FS) (repoPath sbp : Path) (content : String)
    (acc : Path × Nat) (file : Path × String) :
    renameListener env fs repoPath sbp content acc file =
      if listenerCounts env fs repoPath sbp content file then (file.1, acc.2 + 1) else acc := by
  unfold renameListener listenerCounts
  by_cases h1 : env.isBinaryFileSync file.2 = true
  · simp [h1]
  · by_cases h2 : existsSyncLive env fs (repoPath ++ file.1.drop sbp.length) = true
    · simp [h1, h2]
    · by_cases h3 : env.SEQUENCE_MATCHER_RATIO < env.similarity content file.2
      · simp [h1, h2, h3]
      · simp [h1, h2, h3]

theorem foldl_renameListener_count (env : Env) (fs : FS) (repoPath sbp : Path) (content : String)
    (l : List (Path × String)) (acc : Path × Nat) :
    (l.foldl (renameListener env fs repoPath sbp content) acc).2 =
      acc.2 + (l.filter (listenerCounts env fs repoPath sbp content)).length := by
  induction l generalizing acc with
  | nil => simp
  | cons e rest ih =>
    rw [List.foldl_cons, ih, renameListener_eq]
    by_cases h : listenerCounts env fs repoPath sbp content e = true
    · simp [h, List.filter_cons]; omega
    · simp [h, List.filter_cons]

theorem foldl_renameListener_path (env : Env) (fs : FS) (repoPath sbp : Path) (content : String)
    (l : List (Path × String)) (acc : Path × Nat)
    (h : (l.filter (listenerCounts env fs repoPath sbp content)).length = 1) :
    (l.foldl (renameListener env fs repoPath sbp content) acc).1 ∈
      (l.filter (listenerCounts env fs repoPath sbp content)).map Prod.fst := by
  induction l generalizing acc with
  | nil => simp at h
  | cons e rest ih =>
    rw [List.foldl_cons, renameListener_eq]
    by_cases hc : listenerCounts env fs repoPath sbp content e = true
    · simp only [hc, List.filter_cons, if_true, List.length_cons] at h ⊢
      have h0 : (rest.filter (listenerCounts env fs repoPath sbp content)) = [] := by
        apply List.eq_nil_of_length_eq_zero; omega
      have hstay : ∀ (l2 : List (Path × String)) (a : Path × Nat),
          l2.filter (listenerCounts env fs repoPath sbp content) = [] →
          l2.foldl (renameListener env fs repoPath sbp content) a = a := by
        intro l2
        induction l2 with
        | nil => intro a _; rfl
        | cons e2 r2 ih2 =>
          intro a hnil
          have hc2 : listenerCounts env fs repoPath sbp content e2 = false := by
            by_contra hcon
            simp [List.filter_cons, hcon] at hnil
          rw [List.foldl_cons, renameListener_eq]
          simp only [hc2]
          apply ih2
          simpa [List.filter_cons, hc2] using hnil
      rw [hstay rest _ h0]
      simp
    · simp only [hc, List.filter_cons] at h ⊢
      simpa using ih acc h

theorem isRenameMatch_iff (env : Env) (fs : FS) (repoPath sbp : Path) (content : String)
    (p : Path) :
    IsRenameMatch env fs repoPath sbp content p ↔
      ∃ c, (p, c) ∈ walkSync fs sbp ∧ listenerCounts env fs repoPath sbp content (p, c) = true := by
  unfold IsRenameMatch listenerCounts
  constructor
  · rintro ⟨c, h1, h2, h3, h4, h5, h6⟩
    exact ⟨c, (mem_walkSync fs sbp (p, c)).2 ⟨h1, h2, h3⟩, by simp [h4, h5, h6]⟩
  · rintro ⟨c, hm, hc⟩
    obtain ⟨h1, h2, h3⟩ := (mem_walkSync fs sbp (p, c)).1 hm
    simp only [Bool.and_eq_true, Bool.not_eq_true', decide_eq_true_eq] at hc
    exact ⟨c, h1, h2, h3, hc.1, hc.2.1, hc.2.2⟩

theorem count_eq_one_iff_unique_match (env : Env) (fs : FS) (repoPath sbp : Path)
    (content : String) :
    ((walkSync fs sbp).filter (listenerCounts env fs repoPath sbp content)).length = 1 ↔
      ∃! p, IsRenameMatch env fs repoPath sbp content p := by
  rw [length_filter_eq_one_iff _ (nodup_walkSync fs sbp)]
  constructor
  · rintro ⟨e, ⟨hm, hc⟩, huniq⟩
    refine ⟨e.1, (isRenameMatch_iff ..).2 ⟨e.2, hm, hc⟩, ?_⟩
    intro q hq
    obtain ⟨c, hm2, hc2⟩ := (isRenameMatch_iff ..).1 hq
    exact congrArg Prod.fst (huniq (q, c) ⟨hm2, hc2⟩)
  · rintro ⟨p, hp, huniq⟩
    obtain ⟨c, hm, hc⟩ := (isRenameMatch_iff ..).1 hp
    refine ⟨(p, c), ⟨hm, hc⟩, ?_⟩
    rintro ⟨q, d⟩ ⟨hm2, hc2⟩
    have hq : q = p := huniq q ((isRenameMatch_iff ..).2 ⟨d, hm2, hc2⟩)
    subst hq
    have h1 := ((mem_walkSync fs sbp (q, c)).1 hm).1
    have h2 := ((mem_walkSync fs sbp (q, d)).1 hm2).1
    simp only at h1 h2
    rw [h1] at h2
    cases h2
    rfl

theorem checkForRename_eq (env : Env) (fs : FS) (repoPath sbp filePath : Path) (content : String)
    (hread : objGet fs filePath = some content) :
    checkForRename env fs repoPath sbp filePath =
      .ok (if content = "" then { isRename := false, shadowFilePath := [] }
        else
          { isRename := decide (((walkSync fs sbp).foldl
              (renameListener env fs repoPath sbp content) ([], 0)).2 = 1),
            shadowFilePath := ((walkSync fs sbp).foldl
              (renameListener env fs repoPath sbp content) ([], 0)).1 }) := by
  unfold checkForRename readFileSync
  rw [hread]
  by_cases h : content = ""
  · simp [h, bind, Except.bind, pure, Except.pure]
  · simp [h, bind, Except.bind, pure, Except.pure]

/-- C5: for a readable live file, `checkForRename` returns, and `isRename` is true exactly
when the content is non-empty and exactly one shadow file (non-binary, with neither a file
nor a directory at its live path) has a similarity ratio strictly above the threshold. -/
theorem checkForRename_isRename_iff (env : Env) (fs : FS) (repoPath shadowRepoBranchPath
    filePath : Path) (content : String) (hread : objGet fs filePath = some content) :
    ∃ r, checkForRename env fs repoPath shadowRepoBranchPath filePath = .ok r ∧
      (r.isRename = true ↔
        content ≠ "" ∧ ∃! p, IsRenameMatch env fs repoPath shadowRepoBranchPath content p) := by
  refine ⟨_, checkForRename_eq env fs repoPath shadowRepoBranchPath filePath content hread, ?_⟩
  by_cases h : content = ""
  · simp [h]
  · simp only [h, if_false, decide_eq_true_eq, ne_eq, not_false_eq_true, true_and]
    rw [foldl_renameListener_count, ← count_eq_one_iff_unique_match]
    simp

/-! ## copyFilesTo -/

theorem relativeAfter_self_append (root r : Path) : relativeAfter root (root ++ r) = some r := by
  cases h : root ++ r with
  | nil =>
    have h1 : root = [] := (List.append_eq_nil.mp h).1
    have h2 : r = [] := (List.append_eq_nil.mp h).2
    simp [relativeAfter, h1, h2]
  | cons x xs =>
    have hp : root <+: x :: xs := h ▸ List.prefix_append root r
    simp only [relativeAfter, hp, if_true]
    rw [← h, List.drop_left]

theorem relativeAfter_cons (root : Path) (x : String) (xs : Path) :
    relativeAfter root (x :: xs) =
      if root <+: (x :: xs) then some ((x :: xs).drop root.length)
      else relativeAfter root xs := by
  rw [relativeAfter]

theorem relativeAfter_append (root a r : Path) (h : relativeAfter root (a ++ root) = some []) :
    relativeAfter root (a ++ (root ++ r)) = some r := by
  induction a with
  | nil => simpa using relativeAfter_self_append root r
  | cons x a ih =>
    rw [List.cons_append, relativeAfter_cons] at h
    have hnp : ¬ root <+: x :: (a ++ root) := by
      intro hp
      rw [if_pos hp] at h
      have hl := congrArg List.length (Option.some.inj h)
      simp at hl
      omega
    rw [if_neg hnp] at h
    have hnp2 : ¬ root <+: x :: (a ++ (root ++ r)) := by
      intro hp
      apply hnp
      have hp2 : x :: (a ++ root) <+: x :: (a ++ (root ++ r)) := by
        rw [← List.append_assoc, ← List.cons_append]
        exact List.prefix_append _ _
      exact List.prefix_of_prefix_length_le hp hp2 (by simp; omega)
    rw [List.cons_append, relativeAfter_cons, if_neg hnp2]
    exact ih h

theorem copyFilesTo_single (fs : FS) (repoPath filePath destination relPath : Path) (c : String)
    (hrel : relativeAfter repoPath filePath = some relPath) (hc : objGet fs filePath = some c) :
    copyFilesTo fs repoPath [filePath] destination = objSet fs (destination ++ relPath) c := by
  simp [copyFilesTo, hrel, hc]

theorem append_ne_append_of_incomparable (a b x y : Path) (h1 : ¬ a <+: b) (h2 : ¬ b <+: a) :
    a ++ x ≠ b ++ y := by
  intro h
  have ha : a <+: a ++ x := List.prefix_append a x
  have hb : b <+: a ++ x := h ▸ List.prefix_append b y
  rcases List.prefix_or_prefix_of_prefix ha hb with h3 | h3
  · exact h1 h3
  · exact h2 h3

/-! ## getDiffForDeletedFiles -/

theorem deletedStep_eq (env : Env) (self : PopulateBuffer) (st : FS × Diffs) (relPath : Path)
    (hstrip : relativeAfter self.repoPath (env.SHADOW_REPO ++ self.repoPath) = some []) :
    deletedStep env self (self.itemPaths.map (fun itemPath => itemPath.rel_path)) st relPath =
      if DeletionConfirmed env self st.1 relPath then
        (match objGet st.1 (shadowFilePathOf env self relPath) with
          | some c => objSet st.1 (cacheFilePathOf env self relPath) c
          | none => st.1,
          objSet st.2 relPath deletedRecord)
      else st := by
  have hrel : relativeAfter self.repoPath (shadowFilePathOf env self relPath) =
      some ([self.branch] ++ relPath) := by
    unfold shadowFilePathOf
    rw [List.append_assoc]
    exact relativeAfter_append self.repoPath env.SHADOW_REPO ([self.branch] ++ relPath) hstrip
  have hdest : (env.DELETED_REPO ++ self.repoPath) ++ ([self.branch] ++ relPath) =
      cacheFilePathOf env self relPath := by
    unfold cacheFilePathOf
    simp only [List.append_assoc]
  show (if (decide (relPath ∈ self.itemPaths.map (fun itemPath => itemPath.rel_path)) ||
        decide (relPath ∈ self.renamedFiles) ||
        existsSync st.1 (cacheFilePathOf env self relPath) ||
        !existsSync st.1 (shadowFilePathOf env self relPath)) = true then st
      else (copyFilesTo st.1 self.repoPath [shadowFilePathOf env self relPath]
        (env.DELETED_REPO ++ self.repoPath), objSet st.2 relPath deletedRecord)) = _
  by_cases hc : DeletionConfirmed env self st.1 relPath
  · obtain ⟨c, hread⟩ := (existsSync_eq_true _ _).1 hc.2.2.2
    rw [if_pos hc, if_neg (by simp [hc.1, hc.2.1, hc.2.2.1, hc.2.2.2]),
      copyFilesTo_single _ _ _ _ _ c hrel hread, hdest, hread]
  · rw [if_neg hc, if_pos]
    by_contra hb
    apply hc
    simp only [Bool.or_eq_true, decide_eq_true_eq, Bool.not_eq_true', not_or,
      Bool.not_eq_false, Bool.not_eq_true] at hb
    exact ⟨hb.1.1.1, hb.1.1.2, hb.1.2, hb.2⟩

theorem mem_map_fst_iff {β : Type} (obj : List (Path × β)) (k : Path) :
    k ∈ obj.map Prod.fst ↔ objGet obj k ≠ none := by
  induction obj with
  | nil => simp [objGet]
  | cons e rest ih =>
    obtain ⟨a, w⟩ := e
    by_cases h : a = k
    · subst h
      rw [objGet, if_pos rfl]
      exact ⟨fun _ => Option.some_ne_none w, fun _ => List.mem_cons_self _ _⟩
    · simp only [List.map_cons, List.mem_cons, objGet, h, if_false, ih]
      constructor
      · rintro (h1 | h1)
        · exact absurd h1.symm h
        · exact h1
      · exact fun h1 => Or.inr h1

theorem nodup_keys_objSet {β : Type} (obj : List (Path × β)) (k : Path) (v : β)
    (h : (obj.map Prod.fst).Nodup) : ((objSet obj k v).map Prod.fst).Nodup := by
  induction obj with
  | nil => simp [objSet]
  | cons e rest ih =>
    obtain ⟨a, w⟩ := e
    by_cases hak : a = k
    · subst hak
      rw [objSet, if_pos rfl]
      exact h
    · simp only [List.map_cons, List.nodup_cons] at h
      simp only [objSet, hak, if_false, List.map_cons, List.nodup_cons]
      refine ⟨?_, ih h.2⟩
      rw [mem_map_fst_iff, objGet_objSet]
      have hka : ¬ k = a := fun h1 => hak h1.symm
      rw [if_neg hka, ← mem_map_fst_iff]
      exact h.1

theorem length_filter_key {β : Type} (obj : List (Path × β)) (k : Path)
    (h : (obj.map Prod.fst).Nodup) (hk : objGet obj k ≠ none) :
    (obj.filter (fun e => decide (e.1 = k))).length = 1 := by
  induction obj with
  | nil => simp [objGet] at hk
  | cons e rest ih =>
    obtain ⟨a, w⟩ := e
    simp only [List.map_cons, List.nodup_cons] at h
    by_cases hak : a = k
    · subst hak
      have hnil : rest.filter (fun e => decide (e.1 = a)) = [] := by
        rw [List.filter_eq_nil_iff]
        intro e he
        simp only [decide_eq_true_eq]
        intro hea
        exact h.1 (hea ▸ List.mem_map_of_mem Prod.fst he)
      simp [List.filter_cons, hnil]
    · simp only [objGet, hak, if_false] at hk
      simp [List.filter_cons, hak, ih h.2 hk]

theorem sweepInv_foldl (env : Env) (self : PopulateBuffer) (fs : FS)
    (hstrip : relativeAfter self.repoPath (env.SHADOW_REPO ++ self.repoPath) = some [])
    (hsep : ¬ env.DELETED_REPO <+: env.SHADOW_REPO ∧ ¬ env.SHADOW_REPO <+: env.DELETED_REPO)
    (keys : List Path) :
    SweepInv env self fs keys
      (keys.foldl (deletedStep env self (self.itemPaths.map (fun itemPath => itemPath.rel_path)))
        (fs, [])) := by
  induction keys using List.reverseRecOn with
  | nil =>
    exact ⟨fun k => by simp [objGet], fun k => rfl, fun k => by simp [objGet],
      fun k hk => by simp [objGet] at hk, by simp⟩
  | append_singleton done k ih =>
    rw [List.foldl_append, List.foldl_cons, List.foldl_nil]
    generalize done.foldl
      (deletedStep env self (self.itemPaths.map (fun itemPath => itemPath.rel_path))) (fs, []) = st
      at ih
    have hiff : DeletionConfirmed env self st.1 k ↔
        DeletionConfirmed env self fs k ∧ objGet st.2 k = none := by
      unfold DeletionConfirmed
      have hsh : existsSync st.1 (shadowFilePathOf env self k) =
          existsSync fs (shadowFilePathOf env self k) := by
        simp only [existsSync, objHas, ih.shadow k]
      rw [hsh, ih.cache k]
      cases existsSync fs (cacheFilePathOf env self k) <;> cases objGet st.2 k <;> simp
    rw [deletedStep_eq env self st k hstrip]
    by_cases hc : DeletionConfirmed env self st.1 k
    · obtain ⟨hc0, hnone⟩ := hiff.1 hc
      obtain ⟨c, hread⟩ := (existsSync_eq_true _ _).1 hc.2.2.2
      simp only [hc, if_true, hread]
      have hcs : ∀ q, cacheFilePathOf env self k ≠ shadowFilePathOf env self q := fun q =>
        append_ne_append_of_incomparable _ _ _ _ hsep.1 hsep.2
      have hcc : ∀ q, k ≠ q → cacheFilePathOf env self k ≠ cacheFilePathOf env self q := by
        intro q hkq h
        unfold cacheFilePathOf at h
        exact hkq (List.append_cancel_left (List.append_cancel_left h))
      refine ⟨fun q => ?_, fun q => ?_, fun q => ?_, fun q hq => ?_, ?_⟩
      · rw [objGet_objSet, ih.diffs q]
        by_cases hkq : k = q
        · subst hkq
          simp [hc0]
        · have : q ≠ k := fun h => hkq h.symm
          simp [hkq, this]
      · rw [← ih.shadow q, objGet_objSet, if_neg (hcs q)]
      · by_cases hkq : k = q
        · subst hkq
          simp [existsSync, objHas, objGet_objSet]
        · have h1 := ih.cache q
          simp only [existsSync, objHas] at h1
          simp [existsSync, objHas, objGet_objSet, hcc q hkq, hkq, h1]
      · by_cases hkq : k = q
        · subst hkq
          rw [objGet_objSet, if_pos rfl, ← ih.shadow k, hread]
        · rw [objGet_objSet, if_neg hkq] at hq
          rw [objGet_objSet, if_neg (hcc q hkq)]
          exact ih.copied q hq
      · exact nodup_keys_objSet _ _ _ ih.nodup
    · simp only [hc, if_false]
      refine ⟨fun q => ?_, ih.shadow, ih.cache, ih.copied, ih.nodup⟩
      rw [ih.diffs q]
      by_cases hq : q = k
      · subst hq
        by_cases hd : q ∈ done
        · simp [hd]
        · have hnone : objGet st.2 q = none := by rw [ih.diffs q]; simp [hd]
          have : ¬ DeletionConfirmed env self fs q := fun h0 => hc (hiff.2 ⟨h0, hnone⟩)
          simp [this]
      · simp [hq]

theorem getDiffForDeletedFiles_inv (env : Env) (self : PopulateBuffer) (fs : FS)
    (hstrip : relativeAfter self.repoPath (env.SHADOW_REPO ++ self.repoPath) = some [])
    (hsep : ¬ env.DELETED_REPO <+: env.SHADOW_REPO ∧ ¬ env.SHADOW_REPO <+: env.DELETED_REPO) :
    SweepInv env self fs (objKeys self.configFiles) (getDiffForDeletedFiles env self fs) :=
  sweepInv_foldl env self fs hstrip hsep _

theorem objHas_iff_mem_objKeys {β : Type} (obj : List (Path × β)) (k : Path) :
    objHas obj k = true ↔ k ∈ objKeys obj := by
  rw [mem_objKeys, objHas, Option.isSome_iff_ne_none]

/-- C3: after the deletion sweep the returned `diffs` holds, for a relative path, the record
`{is_deleted: true, diff: null}` exactly when the path is a key of `configFiles`, is not the
`rel_path` of a tracked item, is not in `renamedFiles`, has no copy at its deleted-quarantine
path and has a copy at its shadow path; for every other path it holds no record.  The
conditions are read on the file system the sweep starts from; the shadow and deleted roots
are separate directories, and `repoPath` first occurs in `SHADOW_REPO/repoPath` at its end. -/
theorem getDiffForDeletedFiles_record_iff (env : Env) (self : PopulateBuffer) (fs : FS)
    (hstrip : relativeAfter self.repoPath (env.SHADOW_REPO ++ self.repoPath) = some [])
    (hsep : ¬ env.DELETED_REPO <+: env.SHADOW_REPO ∧ ¬ env.SHADOW_REPO <+: env.DELETED_REPO)
    (relPath : Path) :
    objGet (getDiffForDeletedFiles env self fs).2 relPath =
      if objHas self.configFiles relPath = true ∧
          relPath ∉ self.itemPaths.map (fun itemPath => itemPath.rel_path) ∧
          relPath ∉ self.renamedFiles ∧
          existsSync fs
            (env.DELETED_REPO ++ ((self.repoPath ++ [self.branch]) ++ relPath)) = false ∧
          existsSync fs
            (env.SHADOW_REPO ++ ((self.repoPath ++ [self.branch]) ++ relPath)) = true
      then some { diff := .null, is_rename := none, is_new_file := none, is_binary := none,
                  is_deleted := some true, created_at := none }
      else none := by
  rw [(getDiffForDeletedFiles_inv env self fs hstrip hsep).diffs relPath]
  have hk := objHas_iff_mem_objKeys self.configFiles relPath
  by_cases h : relPath ∈ objKeys self.configFiles ∧ DeletionConfirmed env self fs relPath
  · rw [if_pos h, if_pos ⟨hk.2 h.1, h.2⟩]
    rfl
  · rw [if_neg h, if_neg (fun h2 => h ⟨hk.1 h2.1, h2.2⟩)]

/-- Witness for C5: a live file with one identical orphan shadow file. -/
theorem checkForRename_isRename_iff_witness :
    objGet renameFs ["repo", "new.txt"] = some "abc" ∧
    ∃ r, checkForRename sampleEnv renameFs ["repo"] [".shadow", "repo", "main"]
        ["repo", "new.txt"] = .ok r ∧
      (r.isRename = true ↔ "abc" ≠ "" ∧
        ∃! p, IsRenameMatch sampleEnv renameFs ["repo"] [".shadow", "repo", "main"] "abc" p) :=
  ⟨by decide,
    checkForRename_isRename_iff sampleEnv renameFs ["repo"] [".shadow", "repo", "main"]
      ["repo", "new.txt"] "abc" (by decide)⟩

/-- Witness for C3 on the sample repository. -/
theorem getDiffForDeletedFiles_record_iff_witness :
    relativeAfter sweepSelf.repoPath (sampleEnv.SHADOW_REPO ++ sweepSelf.repoPath) = some [] ∧
    (¬ sampleEnv.DELETED_REPO <+: sampleEnv.SHADOW_REPO ∧
      ¬ sampleEnv.SHADOW_REPO <+: sampleEnv.DELETED_REPO) ∧
    objGet (getDiffForDeletedFiles sampleEnv sweepSelf sweepFs).2 ["gone.txt"] =
      some deletedRecord :=
  ⟨by decide, by decide,
    (getDiffForDeletedFiles_record_iff sampleEnv sweepSelf sweepFs (by decide) (by decide)
      ["gone.txt"]).trans (by decide)⟩

/-- C4 as stated fails: `gone.txt` is configured, has a shadow copy, is absent from the live
tree and was not renamed, yet the sweep emits no record for it, because a quarantine copy
already exists. -/
theorem deletion_sweep_already_quarantined :
    objHas sweepSelf.configFiles ["gone.txt"] = true ∧
    existsSync quarantinedFs
      (sampleEnv.SHADOW_REPO ++ ((sweepSelf.repoPath ++ [sweepSelf.branch]) ++ ["gone.txt"]))
      = true ∧
    ["gone.txt"] ∉ sweepSelf.itemPaths.map (fun itemPath => itemPath.rel_path) ∧
    ["gone.txt"] ∉ sweepSelf.renamedFiles ∧
    objGet (getDiffForDeletedFiles sampleEnv sweepSelf quarantinedFs).2 ["gone.txt"] = none := by
  decide

/-- C4, amended: a configured relative path that has a shadow copy, is absent from the live
tree, was not consumed by a rename and has no quarantine copy yet gets exactly one deletion
record from the sweep; the sweep leaves a quarantine copy of the shadow content at the path
its guard checks, and a second sweep on the resulting file system emits no record for the
path.  The shadow and deleted roots are separate directories, and `repoPath` first occurs in
`SHADOW_REPO/repoPath` at its end. -/
theorem deletion_sweep_once (env : Env) (self : PopulateBuffer) (fs : FS)
    (hstrip : relativeAfter self.repoPath (env.SHADOW_REPO ++ self.repoPath) = some [])
    (hsep : ¬ env.DELETED_REPO <+: env.SHADOW_REPO ∧ ¬ env.SHADOW_REPO <+: env.DELETED_REPO)
    (relPath : Path)
    (hcfg : objHas self.configFiles relPath = true)
    (hshadow : existsSync fs
      (env.SHADOW_REPO ++ ((self.repoPath ++ [self.branch]) ++ relPath)) = true)
    (hlive : relPath ∉ self.itemPaths.map (fun itemPath => itemPath.rel_path))
    (hren : relPath ∉ self.renamedFiles)
    (hcache : existsSync fs
      (env.DELETED_REPO ++ ((self.repoPath ++ [self.branch]) ++ relPath)) = false) :
    objGet (getDiffForDeletedFiles env self fs).2 relPath =
        some { diff := .null, is_rename := none, is_new_file := none, is_binary := none,
               is_deleted := some true, created_at := none } ∧
      ((getDiffForDeletedFiles env self fs).2.filter
        (fun e => decide (e.1 = relPath))).length = 1 ∧
      objGet (getDiffForDeletedFiles env self fs).1
          (env.DELETED_REPO ++ ((self.repoPath ++ [self.branch]) ++ relPath)) =
        objGet fs (env.SHADOW_REPO ++ ((self.repoPath ++ [self.branch]) ++ relPath)) ∧
      existsSync (getDiffForDeletedFiles env self fs).1
          (env.DELETED_REPO ++ ((self.repoPath ++ [self.branch]) ++ relPath)) = true ∧
      objGet (getDiffForDeletedFiles env self (getDiffForDeletedFiles env self fs).1).2
        relPath = none := by
  have inv1 := getDiffForDeletedFiles_inv env self fs hstrip hsep
  have hconf : DeletionConfirmed env self fs relPath := ⟨hlive, hren, hcache, hshadow⟩
  have hkey := (objHas_iff_mem_objKeys self.configFiles relPath).1 hcfg
  have hrec : objGet (getDiffForDeletedFiles env self fs).2 relPath = some deletedRecord := by
    rw [inv1.diffs relPath, if_pos ⟨hkey, hconf⟩]
  have hsome : objGet (getDiffForDeletedFiles env self fs).2 relPath ≠ none := by
    rw [hrec]; exact Option.some_ne_none _
  have hex : existsSync (getDiffForDeletedFiles env self fs).1
      (cacheFilePathOf env self relPath) = true := by
    rw [inv1.cache relPath, hrec]; simp
  refine ⟨hrec, length_filter_key _ _ inv1.nodup hsome, inv1.copied relPath hsome, hex, ?_⟩
  have inv2 := getDiffForDeletedFiles_inv env self (getDiffForDeletedFiles env self fs).1
    hstrip hsep
  rw [inv2.diffs relPath, if_neg]
  rintro ⟨_, hc2⟩
  have := hc2.2.2.1
  rw [hex] at this
  exact Bool.noConfusion this

/-- Witness for C4 (amended) on the sample repository. -/
theorem deletion_sweep_once_witness :
    objGet (getDiffForDeletedFiles sampleEnv sweepSelf sweepFs).2 ["gone.txt"] =
        some deletedRecord ∧
      objGet (getDiffForDeletedFiles sampleEnv sweepSelf
        (getDiffForDeletedFiles sampleEnv sweepSelf sweepFs).1).2 ["gone.txt"] = none :=
  have h := deletion_sweep_once sampleEnv sweepSelf sweepFs (by decide) (by decide) ["gone.txt"]
    (by decide) (by decide) (by decide) (by decide) (by decide)
  ⟨h.1, h.2.2.2.2⟩

/-! ## One iteration of populateBufferForRepo -/

theorem contentDiff_eq (env : Env) (self : PopulateBuffer) (fs : FS) (itemPath : TrackedItem)
    (c : String) (hlive : objGet fs itemPath.file_path = some c) :
    contentDiff env self fs itemPath =
      .ok (if jsIn self.configFiles itemPath.rel_path && !itemPath.is_binary then
        env.makePatch
          (match objGet fs (shadowBranchPath env self ++ itemPath.rel_path) with
            | some prev => prev
            | none => if itemPath.size > env.FILE_SIZE_AS_COPY then c else "")
          c
        else "") := by
  unfold contentDiff
  simp only []
  by_cases hg : (jsIn self.configFiles itemPath.rel_path && !itemPath.is_binary) = true
  · simp only [hg, if_true]
    cases hs : objGet fs (shadowBranchPath env self ++ itemPath.rel_path) with
    | none =>
      have hex : existsSync fs (shadowBranchPath env self ++ itemPath.rel_path) = false :=
        (existsSync_eq_false _ _).2 hs
      by_cases hsz : itemPath.size > env.FILE_SIZE_AS_COPY
      · simp [hex, hsz, readFileSync, hlive, bind, Except.bind, pure, Except.pure]
      · simp [hex, hsz, readFileSync, hlive, bind, Except.bind, pure, Except.pure]
    | some prev =>
      have hex : existsSync fs (shadowBranchPath env self ++ itemPath.rel_path) = true :=
        (existsSync_eq_true _ _).2 ⟨prev, hs⟩
      simp [hex, readFileSync, hlive, hs, bind, Except.bind, pure, Except.pure]
  · simp only [hg, if_false]
    rfl

theorem matchScan_isRenameMatch (env : Env) (self : PopulateBuffer) (fs : FS) (content : String)
    (h : (matchScan env self fs content).2 = 1) :
    IsRenameMatch env fs self.repoPath (shadowBranchPath env self) content
      (matchScan env self fs content).1 := by
  unfold matchScan at h ⊢
  rw [foldl_renameListener_count] at h
  have h1 : ((walkSync fs (shadowBranchPath env self)).filter
      (listenerCounts env fs self.repoPath (shadowBranchPath env self) content)).length = 1 := by
    simpa using h
  have hm := foldl_renameListener_path env fs self.repoPath (shadowBranchPath env self) content
    (walkSync fs (shadowBranchPath env self)) ([], 0) h1
  rw [List.mem_map] at hm
  obtain ⟨e, he, hfst⟩ := hm
  rw [← hfst]
  rw [List.mem_filter] at he
  exact (isRenameMatch_iff ..).2 ⟨e.2, he.1, he.2⟩

theorem matchScan_count_iff (env : Env) (self : PopulateBuffer) (fs : FS) (content : String) :
    (matchScan env self fs content).2 = 1 ↔
      ∃! p, IsRenameMatch env fs self.repoPath (shadowBranchPath env self) content p := by
  unfold matchScan
  rw [foldl_renameListener_count, ← count_eq_one_iff_unique_match]
  simp

theorem isRenameMatch_drop_ne (env : Env) (self : PopulateBuffer) (fs : FS) (content : String)
    (p rel : Path)
    (hm : IsRenameMatch env fs self.repoPath (shadowBranchPath env self) content p)
    (hsh : existsSync fs (shadowBranchPath env self ++ rel) = false) :
    p.drop (shadowBranchPath env self).length ≠ rel := by
  obtain ⟨c, hget, hpre, _⟩ := hm
  intro h
  obtain ⟨t, ht⟩ := hpre
  rw [← ht, List.drop_left] at h
  rw [← ht, h, (existsSync_eq_false _ _).1 hsh] at hget
  exact Option.noConfusion hget

theorem renameBranch_eq (env : Env) (self : PopulateBuffer) (fs : FS) (itemPath : TrackedItem)
    (d : DiffValue) (c : String) (hlive : objGet fs itemPath.file_path = some c) :
    renameBranch env self fs itemPath d =
      .ok (if RenameApplies env self fs itemPath c then
        { self := { self with renamedFiles := self.renamedFiles ++
            [(matchScan env self fs c).1.drop (shadowBranchPath env self).length] },
          fs := objErase fs (matchScan env self fs c).1,
          diff := .renameJSON
            ((self.repoPath ++ [self.branch]) ++
              (matchScan env self fs c).1.drop (shadowBranchPath env self).length)
            ((self.repoPath ++ [self.branch]) ++ itemPath.rel_path)
            ((matchScan env self fs c).1.drop (shadowBranchPath env self).length)
            itemPath.rel_path,
          isRename := true }
        else { self := self, fs := fs, diff := d, isRename := false }) := by
  unfold renameBranch
  simp only []
  by_cases hg : (!jsIn self.configFiles itemPath.rel_path &&
      !existsSync fs (shadowBranchPath env self ++ itemPath.rel_path) &&
      !itemPath.is_binary) = true
  · have hg' := hg
    simp only [Bool.and_eq_true, Bool.not_eq_true'] at hg'
    obtain ⟨⟨h1, h2⟩, h3⟩ := hg'
    simp only [hg, if_true]
    rw [checkForRename_eq env fs self.repoPath (shadowBranchPath env self) itemPath.file_path c
      hlive]
    by_cases hc : c = ""
    · subst hc
      have hna : ¬ RenameApplies env self fs itemPath "" := fun h => h.2.2.2.1 rfl
      rw [if_neg hna]
      simp [bind, Except.bind, pure, Except.pure]
    · by_cases hcount : (matchScan env self fs c).2 = 1
      · have hap : RenameApplies env self fs itemPath c := ⟨h1, h2, h3, hc, hcount⟩
        have hmatch := matchScan_isRenameMatch env self fs c hcount
        have hne := isRenameMatch_drop_ne env self fs c _ _ hmatch h2
        have hex : existsSync fs (matchScan env self fs c).1 = true := by
          obtain ⟨c2, hget, _⟩ := hmatch
          exact (existsSync_eq_true _ _).2 ⟨c2, hget⟩
        have hcount' := hcount
        unfold matchScan at hcount' hne hex
        simp only [hc, if_false, hap, if_true, bind, Except.bind, pure, Except.pure, hcount',
          decide_True, hne, ne_eq, not_false_eq_true, unlinkSync, hex]
        rfl
      · have hna : ¬ RenameApplies env self fs itemPath c := fun h => hcount h.2.2.2.2
        have hcount' := hcount
        unfold matchScan at hcount'
        simp only [hc, if_false, hna, bind, Except.bind, pure, Except.pure, hcount',
          decide_False]
        rfl
  · have hna : ¬ RenameApplies env self fs itemPath c := by
      intro h
      apply hg
      simp [h.1, h.2.1, h.2.2.1]
    simp only [hg, hna, if_false]
    rfl

theorem populateItem_eq (env : Env) (st : LoopState) (itemPath : TrackedItem) (c : String)
    (hlive : objGet st.fs itemPath.file_path = some c) :
    populateItem env st itemPath =
      .ok (finishItem env st.diffs itemPath (stepOutcome env st.self st.fs itemPath c)) := by
  unfold populateItem
  rw [contentDiff_eq env st.self st.fs itemPath c hlive]
  simp only [bind, Except.bind]
  rw [renameBranch_eq env st.self st.fs itemPath _ c hlive]
  rfl

theorem stepOutcome_self (env : Env) (self : PopulateBuffer) (fs : FS) (itemPath : TrackedItem)
    (c : String) :
    (stepOutcome env self fs itemPath c).self.repoPath = self.repoPath ∧
    (stepOutcome env self fs itemPath c).self.branch = self.branch ∧
    (stepOutcome env self fs itemPath c).self.configFiles = self.configFiles ∧
    (stepOutcome env self fs itemPath c).self.itemPaths = self.itemPaths := by
  unfold stepOutcome
  split <;> exact ⟨rfl, rfl, rfl, rfl⟩

theorem shadowBranchPath_congr (env : Env) (a b : PopulateBuffer)
    (h1 : a.repoPath = b.repoPath) (h2 : a.branch = b.branch) :
    shadowBranchPath env a = shadowBranchPath env b ∧
      originalsBranchPath env a = originalsBranchPath env b := by
  unfold shadowBranchPath originalsBranchPath
  rw [h1, h2]
  exact ⟨rfl, rfl⟩

theorem stepOutcome_fs (env : Env) (self : PopulateBuffer) (fs : FS) (itemPath : TrackedItem)
    (c : String) (q : Path) :
    objGet (stepOutcome env self fs itemPath c).fs q =
      if RenameApplies env self fs itemPath c ∧ (matchScan env self fs c).1 = q then none
      else objGet fs q := by
  unfold stepOutcome
  by_cases h : RenameApplies env self fs itemPath c
  · simp only [h, if_true, true_and]
    exact objGet_objErase _ _ _
  · simp only [h, if_false, false_and]

theorem finishItem_fs (env : Env) (diffs : Diffs) (itemPath : TrackedItem) (o : RenameOutcome)
    (c : String) (hrel : relativeAfter o.self.repoPath itemPath.file_path = some itemPath.rel_path)
    (hc : objGet o.fs itemPath.file_path = some c) (q : Path) :
    objGet (finishItem env diffs itemPath o).fs q =
      if shadowBranchPath env o.self ++ itemPath.rel_path = q then some c
      else if isNewFile env itemPath o = true ∧
          originalsBranchPath env o.self ++ itemPath.rel_path = q then some c
      else objGet o.fs q := by
  unfold finishItem
  simp only []
  by_cases hn : isNewFile env itemPath o = true
  · simp only [hn, if_true, true_and]
    rw [copyFilesTo_single _ _ _ _ _ c hrel hc]
    have hc2 : objGet (objSet o.fs (originalsBranchPath env o.self ++ itemPath.rel_path) c)
        itemPath.file_path = some c := by
      rw [objGet_objSet]
      split
      · rfl
      · exact hc
    rw [copyFilesTo_single _ _ _ _ _ c hrel hc2, objGet_objSet, objGet_objSet]
  · simp only [hn, if_false, false_and, Bool.false_eq_true]
    rw [copyFilesTo_single _ _ _ _ _ c hrel hc, objGet_objSet]

theorem finishItem_diffs (env : Env) (diffs : Diffs) (itemPath : TrackedItem)
    (o : RenameOutcome) (q : Path) :
    objGet (finishItem env diffs itemPath o).diffs q =
      if itemPath.rel_path = q ∧
          ((if isNewFile env itemPath o then DiffValue.text "" else o.diff).truthy ||
            isNewFile env itemPath o) = true then
        some (itemRecord env itemPath
          (if isNewFile env itemPath o then DiffValue.text "" else o.diff) o.isRename
          (isNewFile env itemPath o))
      else objGet diffs q := by
  unfold finishItem
  simp only []
  by_cases he : ((if isNewFile env itemPath o then DiffValue.text "" else o.diff).truthy ||
      isNewFile env itemPath o) = true
  · simp only [he, if_true, and_true]
    exact objGet_objSet _ _ _ _
  · simp only [he, if_false, and_false, Bool.false_eq_true]

theorem ne_of_below_of_not_below (root p q : Path) (hp : root <+: p) (hq : ¬ root <+: q) :
    p ≠ q := fun h => hq (h ▸ hp)

theorem shadowRepo_below (env : Env) (self : PopulateBuffer) (r : Path) :
    env.SHADOW_REPO <+: shadowBranchPath env self ++ r := by
  unfold shadowBranchPath
  rw [List.append_assoc]
  exact List.prefix_append _ _

theorem originalsRepo_below (env : Env) (self : PopulateBuffer) (r : Path) :
    env.ORIGINALS_REPO <+: originalsBranchPath env self ++ r := by
  unfold originalsBranchPath
  rw [List.append_assoc]
  exact List.prefix_append _ _

theorem not_prefix_append_of_apart (a b r : Path) (h : Apart a b) : ¬ b <+: a ++ r := by
  intro hp
  rcases List.prefix_or_prefix_of_prefix (List.prefix_append a r) hp with h1 | h1
  · exact h.1 h1
  · exact h.2 h1

theorem populateItem_frame (env : Env) (st : LoopState) (itemPath : TrackedItem) (c : String)
    (hapart : TreesApart env st.self.repoPath)
    (hpath : itemPath.file_path = st.self.repoPath ++ itemPath.rel_path)
    (hlive : objGet st.fs itemPath.file_path = some c) :
    StepFrame env st itemPath c
      (finishItem env st.diffs itemPath (stepOutcome env st.self st.fs itemPath c)) := by
  obtain ⟨hrs, hro, hso⟩ := hapart
  obtain ⟨e1, e2, e3, e4⟩ := stepOutcome_self env st.self st.fs itemPath c
  obtain ⟨es, eo⟩ := shadowBranchPath_congr env _ _ e1 e2
  have hlive_ns : ¬ env.SHADOW_REPO <+: itemPath.file_path := by
    rw [hpath]; exact not_prefix_append_of_apart _ _ _ hrs
  have hlive_no : ¬ env.ORIGINALS_REPO <+: itemPath.file_path := by
    rw [hpath]; exact not_prefix_append_of_apart _ _ _ hro
  have hmatch : RenameApplies env st.self st.fs itemPath c →
      IsRenameMatch env st.fs st.self.repoPath (shadowBranchPath env st.self) c
        (matchScan env st.self st.fs c).1 := fun h => matchScan_isRenameMatch _ _ _ _ h.2.2.2.2
  have hmatch_s : RenameApplies env st.self st.fs itemPath c →
      env.SHADOW_REPO <+: (matchScan env st.self st.fs c).1 := by
    intro h
    obtain ⟨_, _, hp, _⟩ := hmatch h
    obtain ⟨t, ht⟩ := hp
    rw [← ht]
    exact shadowRepo_below env st.self t
  have hrel : relativeAfter (stepOutcome env st.self st.fs itemPath c).self.repoPath
      itemPath.file_path = some itemPath.rel_path := by
    rw [e1, hpath]; exact relativeAfter_self_append _ _
  have hc : objGet (stepOutcome env st.self st.fs itemPath c).fs itemPath.file_path = some c := by
    rw [stepOutcome_fs, if_neg, hlive]
    rintro ⟨ha, hq⟩
    exact hlive_ns (hq ▸ hmatch_s ha)
  have hfs : ∀ q, objGet
      (finishItem env st.diffs itemPath (stepOutcome env st.self st.fs itemPath c)).fs q =
      if shadowBranchPath env st.self ++ itemPath.rel_path = q then some c
      else if isNewFile env itemPath (stepOutcome env st.self st.fs itemPath c) = true ∧
          originalsBranchPath env st.self ++ itemPath.rel_path = q then some c
      else if RenameApplies env st.self st.fs itemPath c ∧
          (matchScan env st.self st.fs c).1 = q then none
      else objGet st.fs q := by
    intro q
    rw [finishItem_fs env st.diffs itemPath _ c hrel hc q, es, eo, stepOutcome_fs]
  have hso_ne : ∀ a b, shadowBranchPath env st.self ++ a ≠ originalsBranchPath env st.self ++ b :=
    fun a b => ne_of_below_of_not_below _ _ _ (shadowRepo_below env st.self a)
      (fun h => by
        rcases List.prefix_or_prefix_of_prefix h (originalsRepo_below env st.self b) with h1 | h1
        · exact hso.1 h1
        · exact hso.2 h1)
  refine
    { repoPath := e1, branch := e2, configFiles := e3, itemPaths := e4,
      renamed := ?_, outside := ?_, originals := ?_, shadow := ?_, shadowNone := ?_,
      diffs := ?_, synced := ?_, erased := ?_ }
  · intro x hx
    show x ∈ (stepOutcome env st.self st.fs itemPath c).self.renamedFiles
    unfold stepOutcome
    split
    · exact List.mem_append_left _ hx
    · exact hx
  · intro q hqs hqo
    rw [hfs q, if_neg (ne_of_below_of_not_below _ _ _ (shadowRepo_below env st.self _) hqs),
      if_neg (fun h => ne_of_below_of_not_below _ _ _ (originalsRepo_below env st.self _) hqo h.2),
      if_neg (fun h => ne_of_below_of_not_below _ _ _ (hmatch_s h.1) hqs h.2)]
  · intro r hr
    rw [hfs, if_neg (hso_ne _ _),
      if_neg (fun h => hr (List.append_cancel_left h.2).symm),
      if_neg]
    rintro ⟨ha, hq⟩
    have h1 := hmatch_s ha
    rw [hq] at h1
    rcases List.prefix_or_prefix_of_prefix h1 (originalsRepo_below env st.self r) with h2 | h2
    · exact hso.1 h2
    · exact hso.2 h2
  · intro r hr hex
    rw [hfs, if_neg (fun h => hr (List.append_cancel_left h).symm),
      if_neg (fun h => hso_ne _ _ h.2.symm), if_neg]
    rintro ⟨ha, hq⟩
    obtain ⟨_, _, _, _, _, hnolive, _⟩ := hmatch ha
    have hnolive2 := existsSync_of_existsSyncLive_false _ _ _ hnolive
    rw [hq, List.drop_left, hex] at hnolive2
    exact Bool.noConfusion hnolive2
  · intro r hr hnone
    rw [hfs, if_neg (fun h => hr (List.append_cancel_left h).symm),
      if_neg (fun h => hso_ne _ _ h.2.symm)]
    split
    · rfl
    · exact hnone
  · intro r hr
    rw [finishItem_diffs, if_neg (fun h => hr h.1.symm)]
  · rw [hfs, if_pos rfl]
  · intro ha
    have hnew : isNewFile env itemPath (stepOutcome env st.self st.fs itemPath c) = false := by
      unfold isNewFile stepOutcome
      simp [ha]
    obtain ⟨c2, hget, _⟩ := hmatch ha
    have hne : shadowBranchPath env st.self ++ itemPath.rel_path ≠
        (matchScan env st.self st.fs c).1 := by
      intro h
      rw [← h, (existsSync_eq_false _ _).1 ha.2.1] at hget
      exact Option.noConfusion hget
    rw [hfs, if_neg hne, if_neg (by simp [hnew]), if_pos ⟨ha, rfl⟩]

/-! ## The item loop -/

theorem loopInv_init (env : Env) (self : PopulateBuffer) (fs : FS) :
    LoopInv env self fs [] { self := self, fs := fs, diffs := [] } :=
  { repoPath := rfl, branch := rfl, configFiles := rfl, itemPaths := rfl,
    outside := fun _ _ _ => rfl, originals := fun _ _ => rfl, shadow := fun _ _ _ => rfl,
    diffs := fun _ _ => rfl, synced := fun _ h => by simp at h }

theorem loopInv_live (env : Env) (self : PopulateBuffer) (fs : FS) (done : List TrackedItem)
    (st : LoopState) (hok : PassOK env self fs) (inv : LoopInv env self fs done st)
    (itemPath : TrackedItem) (hmem : itemPath ∈ self.itemPaths) :
    objGet st.fs itemPath.file_path = objGet fs itemPath.file_path ∧
      ∃ c, objGet fs itemPath.file_path = some c := by
  obtain ⟨hitems, _, hrs, hro, _⟩ := hok
  obtain ⟨hpath, hex⟩ := hitems itemPath hmem
  refine ⟨inv.outside _ ?_ ?_, (existsSync_eq_true _ _).1 hex⟩
  · rw [hpath]; exact not_prefix_append_of_apart _ _ _ hrs
  · rw [hpath]; exact not_prefix_append_of_apart _ _ _ hro

theorem loopInv_step (env : Env) (self : PopulateBuffer) (fs : FS) (done : List TrackedItem)
    (st : LoopState) (hok : PassOK env self fs) (inv : LoopInv env self fs done st)
    (hdone : ∀ x ∈ done, x ∈ self.itemPaths)
    (itemPath : TrackedItem) (hmem : itemPath ∈ self.itemPaths)
    (hnew : itemPath.rel_path ∉ done.map (fun x => x.rel_path)) :
    ∃ c st1, objGet st.fs itemPath.file_path = some c ∧
      populateItem env st itemPath = .ok st1 ∧
      st1 = finishItem env st.diffs itemPath (stepOutcome env st.self st.fs itemPath c) ∧
      StepFrame env st itemPath c st1 ∧
      LoopInv env self fs (done ++ [itemPath]) st1 := by
  obtain ⟨hl1, c, hl2⟩ := loopInv_live env self fs done st hok inv itemPath hmem
  have hlive : objGet st.fs itemPath.file_path = some c := hl1.trans hl2
  obtain ⟨hitems, _, hapart⟩ := hok
  have hpath : itemPath.file_path = st.self.repoPath ++ itemPath.rel_path := by
    rw [inv.repoPath]; exact (hitems itemPath hmem).1
  have hfr := populateItem_frame env st itemPath c (inv.repoPath ▸ hapart) hpath hlive
  obtain ⟨es, eo⟩ := shadowBranchPath_congr env st.self self inv.repoPath inv.branch
  refine ⟨c, _, hlive, populateItem_eq env st itemPath c hlive, rfl, hfr, ?_⟩
  have hsplit : ∀ r, r ∉ (done ++ [itemPath]).map (fun x => x.rel_path) →
      r ∉ done.map (fun x => x.rel_path) ∧ r ≠ itemPath.rel_path := by
    intro r hr
    simp only [List.map_append, List.map_cons, List.map_nil, List.mem_append,
      List.mem_singleton, not_or] at hr
    exact hr
  refine
    { repoPath := hfr.repoPath.trans inv.repoPath, branch := hfr.branch.trans inv.branch,
      configFiles := hfr.configFiles.trans inv.configFiles,
      itemPaths := hfr.itemPaths.trans inv.itemPaths,
      outside := fun q h1 h2 => (hfr.outside q h1 h2).trans (inv.outside q h1 h2),
      originals := ?_, shadow := ?_, diffs := ?_, synced := ?_ }
  · intro r hr
    obtain ⟨h1, h2⟩ := hsplit r hr
    rw [← eo, hfr.originals r h2, eo]
    exact inv.originals r h1
  · intro r hr hex
    obtain ⟨h1, h2⟩ := hsplit r hr
    have hex2 : existsSync st.fs (st.self.repoPath ++ r) = true := by
      obtain ⟨cr, hcr⟩ := (existsSync_eq_true _ _).1 hex
      apply (existsSync_eq_true _ _).2
      refine ⟨cr, ?_⟩
      rw [inv.repoPath, inv.outside _ (not_prefix_append_of_apart _ _ _ hapart.1)
        (not_prefix_append_of_apart _ _ _ hapart.2.1)]
      exact hcr
    rw [← es, hfr.shadow r h2 hex2, es]
    exact inv.shadow r h1 hex
  · intro r hr
    obtain ⟨h1, h2⟩ := hsplit r hr
    rw [hfr.diffs r h2]
    exact inv.diffs r h1
  · intro x hx
    rw [List.mem_append, List.mem_singleton] at hx
    rcases hx with hx | hx
    · have hne : x.rel_path ≠ itemPath.rel_path := by
        intro h
        exact hnew (h ▸ List.mem_map_of_mem (fun x => x.rel_path) hx)
      obtain ⟨hxpath, hxex⟩ := hitems x (hdone x hx)
      have hex2 : existsSync st.fs (st.self.repoPath ++ x.rel_path) = true := by
        obtain ⟨hx1, cx, hx2⟩ := loopInv_live env self fs done st ⟨hitems, ‹_›, hapart⟩ inv x
          (hdone x hx)
        apply (existsSync_eq_true _ _).2
        refine ⟨cx, ?_⟩
        rw [inv.repoPath, ← hxpath, hx1, hx2]
      rw [← es, hfr.shadow _ hne hex2, es]
      exact inv.synced x hx
    · subst hx
      rw [← es, hfr.synced, ← hl2]

theorem populateLoop_inv (env : Env) (self : PopulateBuffer) (fs : FS)
    (hok : PassOK env self fs) (todo : List TrackedItem) :
    ∀ (done : List TrackedItem) (st : LoopState), done ++ todo = self.itemPaths →
      LoopInv env self fs done st →
      ∃ st1, populateLoop env todo st = .ok st1 ∧ LoopInv env self fs (done ++ todo) st1 ∧
        LoopFrame env self todo st st1 := by
  induction todo with
  | nil =>
    intro done st _ inv
    refine ⟨st, rfl, by simpa using inv, ?_⟩
    exact ⟨fun _ _ => rfl, fun _ _ => rfl, fun _ _ h => h, fun _ h => h⟩
  | cons itemPath rest ih =>
    intro done st hsplit inv
    have hmem : itemPath ∈ self.itemPaths := by rw [← hsplit]; simp
    have hdone : ∀ x ∈ done, x ∈ self.itemPaths := by
      intro x hx; rw [← hsplit]; exact List.mem_append_left _ hx
    have hnodup := hok.2.1
    rw [← hsplit, List.map_append, List.map_cons] at hnodup
    have hnew : itemPath.rel_path ∉ done.map (fun x => x.rel_path) := by
      intro h
      exact (List.nodup_append.1 hnodup).2.2 h (List.mem_cons_self _ _)
    have hrest : itemPath.rel_path ∉ rest.map (fun x => x.rel_path) :=
      (List.nodup_cons.1 (List.nodup_append.1 hnodup).2.1).1
    obtain ⟨c, st1, _, hstep, _, hfr, inv1⟩ :=
      loopInv_step env self fs done st hok inv hdone itemPath hmem hnew
    obtain ⟨st2, hloop, inv2, fr2⟩ := ih (done ++ [itemPath]) st1 (by simpa using hsplit) inv1
    obtain ⟨es, eo⟩ := shadowBranchPath_congr env st.self self inv.repoPath inv.branch
    refine ⟨st2, ?_, by simpa using inv2, ?_⟩
    · rw [populateLoop, hstep]
      exact hloop
    · have hsp : ∀ r, r ∉ (itemPath :: rest).map (fun x => x.rel_path) →
          r ≠ itemPath.rel_path ∧ r ∉ rest.map (fun x => x.rel_path) := by
        intro r hr
        simpa [not_or] using hr
      refine ⟨?_, ?_, ?_, ?_⟩
      · intro r hr
        rw [fr2.diffs r (hsp r hr).2, hfr.diffs r (hsp r hr).1]
      · intro r hr
        rw [fr2.originals r (hsp r hr).2, ← eo, hfr.originals r (hsp r hr).1]
      · intro r hr hnone
        apply fr2.shadowNone r (hsp r hr).2
        rw [← es]
        apply hfr.shadowNone r (hsp r hr).1
        rw [es]
        exact hnone
      · intro x hx
        exact fr2.renamed x (hfr.renamed x hx)

theorem populateLoop_append (env : Env) (pre rest : List TrackedItem) (st s1 : LoopState)
    (h : populateLoop env pre st = .ok s1) :
    populateLoop env (pre ++ rest) st = populateLoop env rest s1 := by
  induction pre generalizing st with
  | nil =>
    simp only [populateLoop, Except.ok.injEq] at h
    rw [List.nil_append, h]
  | cons x xs ih =>
    rw [List.cons_append, populateLoop]
    rw [populateLoop] at h
    cases hx : populateItem env st x with
    | error e => rw [hx] at h; exact Except.noConfusion h
    | ok st2 =>
      rw [hx] at h
      exact ih st2 h

/-- The pass split at one item: the state `s1` in which the loop reaches the item, the state
`s2` right after it, and the final state. -/
theorem pass_decompose (env : Env) (self : PopulateBuffer) (fs : FS) (hok : PassOK env self fs)
    (pre post : List TrackedItem) (itemPath : TrackedItem)
    (hitems : self.itemPaths = pre ++ itemPath :: post) :
    ∃ s1 c s2 final,
      populateLoop env pre { self := self, fs := fs, diffs := [] } = .ok s1 ∧
      LoopInv env self fs pre s1 ∧
      objGet s1.fs itemPath.file_path = some c ∧
      s2 = finishItem env s1.diffs itemPath (stepOutcome env s1.self s1.fs itemPath c) ∧
      StepFrame env s1 itemPath c s2 ∧
      populateBufferForRepo env self fs = .ok final ∧
      LoopFrame env self post s2 final ∧
      LoopInv env self fs self.itemPaths final ∧
      itemPath.rel_path ∉ pre.map (fun x => x.rel_path) ∧
      itemPath.rel_path ∉ post.map (fun x => x.rel_path) := by
  have hnodup := hok.2.1
  rw [hitems, List.map_append, List.map_cons] at hnodup
  have hnew : itemPath.rel_path ∉ pre.map (fun x => x.rel_path) := fun h =>
    (List.nodup_append.1 hnodup).2.2 h (List.mem_cons_self _ _)
  have hrest : itemPath.rel_path ∉ post.map (fun x => x.rel_path) :=
    (List.nodup_cons.1 (List.nodup_append.1 hnodup).2.1).1
  have hmem : itemPath ∈ self.itemPaths := by rw [hitems]; simp
  have hpremem : ∀ x ∈ pre, x ∈ self.itemPaths := by
    intro x hx; rw [hitems]; exact List.mem_append_left _ hx
  obtain ⟨s1, hs1, inv1⟩ : ∃ s1, populateLoop env pre { self := self, fs := fs, diffs := [] }
      = .ok s1 ∧ LoopInv env self fs pre s1 := by
    have key : ∀ (todo : List TrackedItem) (done : List TrackedItem) (st : LoopState),
        (∀ x ∈ done ++ todo, x ∈ self.itemPaths) →
        ((done ++ todo).map (fun x => x.rel_path)).Nodup →
        LoopInv env self fs done st →
        ∃ st1, populateLoop env todo st = .ok st1 ∧ LoopInv env self fs (done ++ todo) st1 := by
      intro todo
      induction todo with
      | nil => intro done st _ _ inv; exact ⟨st, rfl, by simpa using inv⟩
      | cons x xs ih =>
        intro done st hsub hnd inv
        have hxmem : x ∈ self.itemPaths := hsub x (by simp)
        have hdm : ∀ y ∈ done, y ∈ self.itemPaths := fun y hy =>
          hsub y (List.mem_append_left _ hy)
        rw [List.map_append, List.map_cons] at hnd
        have hxn : x.rel_path ∉ done.map (fun x => x.rel_path) := fun h =>
          (List.nodup_append.1 hnd).2.2 h (List.mem_cons_self _ _)
        obtain ⟨_, st1, _, hstep, _, _, inv1⟩ :=
          loopInv_step env self fs done st hok inv hdm x hxmem hxn
        obtain ⟨st2, hl, inv2⟩ := ih (done ++ [x]) st1
          (by simpa using hsub)
          (by simpa [List.map_append] using hnd) inv1
        refine ⟨st2, ?_, by simpa using inv2⟩
        rw [populateLoop, hstep]
        exact hl
    have := key pre [] { self := self, fs := fs, diffs := [] }
      (by simpa using hpremem)
      (by simpa using (List.nodup_append.1 hnodup).1)
      (loopInv_init env self fs)
    simpa using this
  obtain ⟨c, s2, hlive, hstep, hs2, hfr, inv2⟩ :=
    loopInv_step env self fs pre s1 hok inv1 hpremem itemPath hmem hnew
  obtain ⟨final, hloop, invf, frf⟩ := populateLoop_inv env self fs hok post (pre ++ [itemPath]) s2
    (by simp [hitems]) inv2
  refine ⟨s1, c, s2, final, hs1, inv1, hlive, hs2, hfr, ?_, frf, ?_, hnew, hrest⟩
  · unfold populateBufferForRepo
    rw [hitems, populateLoop_append env pre _ _ s1 hs1, populateLoop, hstep]
    exact hloop
  · have : pre ++ [itemPath] ++ post = self.itemPaths := by simp [hitems]
    rw [← this]
    exact invf

theorem stepOutcome_of_not_applies (env : Env) (self : PopulateBuffer) (fs : FS)
    (itemPath : TrackedItem) (c : String) (h : ¬ RenameApplies env self fs itemPath c) :
    stepOutcome env self fs itemPath c =
      { self := self, fs := fs, diff := .text (contentDiffText env self fs itemPath c),
        isRename := false } := by
  unfold stepOutcome
  rw [if_neg h]

theorem stepOutcome_of_applies (env : Env) (self : PopulateBuffer) (fs : FS)
    (itemPath : TrackedItem) (c : String) (h : RenameApplies env self fs itemPath c) :
    stepOutcome env self fs itemPath c =
      { self := { self with
          renamedFiles := self.renamedFiles ++ [matchedRelPath env self fs c] },
        fs := objErase fs (matchScan env self fs c).1,
        diff := .renameJSON
          ((self.repoPath ++ [self.branch]) ++ matchedRelPath env self fs c)
          ((self.repoPath ++ [self.branch]) ++ itemPath.rel_path)
          (matchedRelPath env self fs c)
          itemPath.rel_path,
        isRename := true } := by
  unfold stepOutcome
  rw [if_pos h]

/-- C7: a tracked item whose relative path is in `configFiles` and whose live content equals
the content of its shadow copy gets no record from `populateBufferForRepo`, given that the
patch of that content against itself is the empty string.  The pass satisfies `PassOK`, and
it returns. -/
theorem populate_unchanged_no_record (env : Env) (self : PopulateBuffer) (fs : FS)
    (hok : PassOK env self fs) (itemPath : TrackedItem) (c : String)
    (hmem : itemPath ∈ self.itemPaths)
    (hcfg : objHas self.configFiles itemPath.rel_path = true)
    (hlive : objGet fs itemPath.file_path = some c)
    (hshadow : objGet fs (shadowBranchPath env self ++ itemPath.rel_path) = some c)
    (hcodec : env.makePatch c c = "") :
    ∃ final, populateBufferForRepo env self fs = .ok final ∧
      objGet final.diffs itemPath.rel_path = none := by
  obtain ⟨pre, post, hitems⟩ := List.append_of_mem hmem
  obtain ⟨s1, c1, s2, final, _, inv1, hlive1, hs2, _, hrun, frf, _, hnew, hrest⟩ :=
    pass_decompose env self fs hok pre post itemPath hitems
  have hc1 : c1 = c := by
    have := (loopInv_live env self fs pre s1 hok inv1 itemPath hmem).1
    rw [hlive1, hlive] at this
    exact Option.some.inj this
  subst hc1
  obtain ⟨hpath, hex⟩ := hok.1 itemPath hmem
  obtain ⟨es, _⟩ := shadowBranchPath_congr env s1.self self inv1.repoPath inv1.branch
  have hsh1 : objGet s1.fs (shadowBranchPath env s1.self ++ itemPath.rel_path) = some c1 := by
    rw [es, inv1.shadow _ hnew (hpath ▸ hex)]
    exact hshadow
  have hna : ¬ RenameApplies env s1.self s1.fs itemPath c1 := by
    intro h
    have := h.1
    rw [inv1.configFiles, jsIn_of_objHas _ _ hcfg] at this
    exact Bool.noConfusion this
  refine ⟨final, hrun, ?_⟩
  rw [frf.diffs _ hrest, hs2, finishItem_diffs, stepOutcome_of_not_applies _ _ _ _ _ hna]
  have hnew0 : isNewFile env itemPath
      { self := s1.self, fs := s1.fs,
        diff := .text (contentDiffText env s1.self s1.fs itemPath c1), isRename := false }
      = false := by
    unfold isNewFile
    simp [inv1.configFiles, jsIn_of_objHas _ _ hcfg]
  have htext : contentDiffText env s1.self s1.fs itemPath c1 = "" := by
    unfold contentDiffText
    rw [hsh1]
    split
    · exact hcodec
    · rfl
  rw [if_neg]
  · exact inv1.diffs _ hnew
  · rw [hnew0, htext]
    simp [DiffValue.truthy]

/-- C9: for a binary tracked item any record `populateBufferForRepo` emits has an empty patch
text and `is_rename = false`, and a binary item whose relative path is in `configFiles` gets
no record at all.  The pass satisfies `PassOK`, and it returns. -/
theorem populate_binary_record (env : Env) (self : PopulateBuffer) (fs : FS)
    (hok : PassOK env self fs) (itemPath : TrackedItem)
    (hmem : itemPath ∈ self.itemPaths)
    (hbin : itemPath.is_binary = true) :
    ∃ final, populateBufferForRepo env self fs = .ok final ∧
      (∀ r, objGet final.diffs itemPath.rel_path = some r →
        r.diff = .text "" ∧ r.is_rename = some false) ∧
      (objHas self.configFiles itemPath.rel_path = true →
        objGet final.diffs itemPath.rel_path = none) := by
  obtain ⟨pre, post, hitems⟩ := List.append_of_mem hmem
  obtain ⟨s1, c1, s2, final, _, inv1, _, hs2, _, hrun, frf, _, hnew, hrest⟩ :=
    pass_decompose env self fs hok pre post itemPath hitems
  have hna : ¬ RenameApplies env s1.self s1.fs itemPath c1 := by
    intro h
    have := h.2.2.1
    rw [hbin] at this
    exact Bool.noConfusion this
  have htext : contentDiffText env s1.self s1.fs itemPath c1 = "" := by
    unfold contentDiffText
    simp [hbin]
  have hget : objGet final.diffs itemPath.rel_path =
      if isNewFile env itemPath
          { self := s1.self, fs := s1.fs, diff := .text "", isRename := false } = true then
        some (itemRecord env itemPath (.text "") false true)
      else none := by
    rw [frf.diffs _ hrest, hs2, finishItem_diffs, stepOutcome_of_not_applies _ _ _ _ _ hna,
      htext]
    cases hn : isNewFile env itemPath
        { self := s1.self, fs := s1.fs, diff := .text "", isRename := false }
    · simp [DiffValue.truthy, inv1.diffs _ hnew]
    · simp
  refine ⟨final, hrun, ?_, ?_⟩
  · intro r hr
    rw [hget] at hr
    split at hr
    · cases hr
      exact ⟨rfl, rfl⟩
    · exact Option.noConfusion hr
  · intro hcfg
    rw [hget, if_neg]
    unfold isNewFile
    simp [inv1.configFiles, jsIn_of_objHas _ _ hcfg]

theorem renameApplies_iff (env : Env) (self : PopulateBuffer) (fs : FS) (st : LoopState)
    (done : List TrackedItem) (inv : LoopInv env self fs done st) (itemPath : TrackedItem)
    (c : String) :
    RenameApplies env st.self st.fs itemPath c ↔
      jsIn self.configFiles itemPath.rel_path = false ∧
      existsSync st.fs (shadowBranchPath env self ++ itemPath.rel_path) = false ∧
      itemPath.is_binary = false ∧ c ≠ "" ∧
      ∃! p, IsRenameMatch env st.fs self.repoPath (shadowBranchPath env self) c p := by
  obtain ⟨es, _⟩ := shadowBranchPath_congr env st.self self inv.repoPath inv.branch
  unfold RenameApplies
  rw [matchScan_count_iff, es, inv.configFiles, inv.repoPath]

/-- New-file handling where the `in` test of lines 135, 151 and 172 is false: a tracked item
that has neither a shadow copy nor an originals copy when the loop reaches it and is not
classified as a rename (it is binary, or its content is empty, or the number of matching
shadow files is not exactly one) gets an originals snapshot of its live content and a record
with `is_new_file = true`, `is_rename = false` and an empty patch.  Here `s1` is the state in
which the loop reaches the item, after the items `pre`; the pass satisfies `PassOK`. -/
theorem populate_new_file_record (env : Env) (self : PopulateBuffer) (fs : FS)
    (hok : PassOK env self fs) (pre post : List TrackedItem) (itemPath : TrackedItem)
    (s1 : LoopState) (c : String)
    (hitems : self.itemPaths = pre ++ itemPath :: post)
    (hpre : populateLoop env pre { self := self, fs := fs, diffs := [] } = .ok s1)
    (hcfg : jsIn self.configFiles itemPath.rel_path = false)
    (hshadow : existsSync s1.fs (shadowBranchPath env self ++ itemPath.rel_path) = false)
    (horig : existsSync s1.fs (originalsBranchPath env self ++ itemPath.rel_path) = false)
    (hlive : objGet s1.fs itemPath.file_path = some c)
    (hnot : itemPath.is_binary = true ∨ c = "" ∨
      ¬ ∃! p, IsRenameMatch env s1.fs self.repoPath (shadowBranchPath env self) c p) :
    ∃ final, populateBufferForRepo env self fs = .ok final ∧
      objGet final.diffs itemPath.rel_path =
        some { diff := .text "", is_rename := some false, is_new_file := some true,
               is_binary := some itemPath.is_binary, is_deleted := none,
               created_at := some (env.dateFormat itemPath.modified_at) } ∧
      objGet final.fs (originalsBranchPath env self ++ itemPath.rel_path) = some c := by
  obtain ⟨s1', c1, s2, final, hs1, inv1, hlive1, hs2, _, hrun, frf, _, _, hrest⟩ :=
    pass_decompose env self fs hok pre post itemPath hitems
  rw [hpre] at hs1
  cases hs1
  rw [hlive] at hlive1
  cases hlive1
  obtain ⟨es, eo⟩ := shadowBranchPath_congr env s1.self self inv1.repoPath inv1.branch
  have hmem : itemPath ∈ self.itemPaths := by rw [hitems]; simp
  have hna : ¬ RenameApplies env s1.self s1.fs itemPath c := by
    rw [renameApplies_iff env self fs s1 pre inv1]
    rintro ⟨_, _, hb, hc, hu⟩
    rcases hnot with h | h | h
    · rw [hb] at h; exact Bool.noConfusion h
    · exact hc h
    · exact h hu
  have hisnew : isNewFile env itemPath
      { self := s1.self, fs := s1.fs,
        diff := .text (contentDiffText env s1.self s1.fs itemPath c), isRename := false }
      = true := by
    unfold isNewFile
    simp only [es, eo, inv1.configFiles, hcfg, hshadow, horig]
    rfl
  refine ⟨final, hrun, ?_, ?_⟩
  · rw [frf.diffs _ hrest, hs2, finishItem_diffs, stepOutcome_of_not_applies _ _ _ _ _ hna,
      hisnew]
    simp [itemRecord]
  · rw [frf.originals _ hrest, hs2, stepOutcome_of_not_applies _ _ _ _ _ hna,
      finishItem_fs env s1.diffs itemPath _ c
        (by
          show relativeAfter s1.self.repoPath itemPath.file_path = some itemPath.rel_path
          rw [inv1.repoPath, (hok.1 itemPath hmem).1]
          exact relativeAfter_self_append _ _)
        hlive, hisnew]
    simp only [es, eo]
    split
    · rfl
    · simp

/-- C6 as stated fails: the live file `new.txt` is empty, not binary, not in `configFiles`
and has no shadow copy; exactly one shadow file, the orphan `old.txt`, exceeds the
similarity threshold; yet the record emitted for `new.txt` is a new-file record, not a
rename, and the shadow entry of `old.txt` is still there. -/
theorem populate_empty_file_not_renamed :
    PassOK sampleEnv emptySelf emptyFs ∧
    emptyItem ∈ emptySelf.itemPaths ∧
    emptyItem.is_binary = false ∧
    objHas emptySelf.configFiles emptyItem.rel_path = false ∧
    existsSync emptyFs (shadowBranchPath sampleEnv emptySelf ++ emptyItem.rel_path) = false ∧
    (∃! p, IsRenameMatch sampleEnv emptyFs emptySelf.repoPath
      (shadowBranchPath sampleEnv emptySelf) "" p) ∧
    ∃ final, populateBufferForRepo sampleEnv emptySelf emptyFs = .ok final ∧
      objGet final.diffs emptyItem.rel_path =
        some { diff := .text "", is_rename := some false, is_new_file := some true,
               is_binary := some false, is_deleted := none, created_at := some "" } ∧
      existsSync final.fs [".shadow", "repo", "main", "old.txt"] = true :=
  ⟨by decide, by decide, by decide, by decide, by decide,
    (matchScan_count_iff sampleEnv emptySelf emptyFs "").1 (by decide),
    _, rfl, by decide, by decide⟩

/-- C6, amended: a non-binary tracked item whose relative path is neither a key of
`configFiles` nor a property name inherited from `Object.prototype`, that has no shadow copy
when the loop reaches it and whose live content is non-empty, for which exactly one shadow
file `p` (non-binary, nothing at its live path) exceeds the similarity threshold, gets a
record with `is_rename = true` and
`is_new_file = false` whose payload carries `p` relative to the shadow branch root as
`old_rel_path` and the item's relative path as `new_rel_path`; afterwards the shadow entry
`p` no longer exists and the old relative path is in `renamedFiles`.  Here `s1` is the state
in which the loop reaches the item, after the items `pre`; the pass satisfies `PassOK`, and it
returns. -/
theorem populate_rename_record (env : Env) (self : PopulateBuffer) (fs : FS)
    (hok : PassOK env self fs) (pre post : List TrackedItem) (itemPath : TrackedItem)
    (s1 : LoopState) (c : String) (p : Path)
    (hitems : self.itemPaths = pre ++ itemPath :: post)
    (hpre : populateLoop env pre { self := self, fs := fs, diffs := [] } = .ok s1)
    (hbin : itemPath.is_binary = false)
    (hcfg : jsIn self.configFiles itemPath.rel_path = false)
    (hshadow : existsSync s1.fs (shadowBranchPath env self ++ itemPath.rel_path) = false)
    (hlive : objGet s1.fs itemPath.file_path = some c)
    (hne : c ≠ "")
    (hmatch : IsRenameMatch env s1.fs self.repoPath (shadowBranchPath env self) c p)
    (huniq : ∀ q, IsRenameMatch env s1.fs self.repoPath (shadowBranchPath env self) c q →
      q = p) :
    ∃ final, populateBufferForRepo env self fs = .ok final ∧
      objGet final.diffs itemPath.rel_path =
        some { diff := .renameJSON
                 ((self.repoPath ++ [self.branch]) ++ p.drop (shadowBranchPath env self).length)
                 ((self.repoPath ++ [self.branch]) ++ itemPath.rel_path)
                 (p.drop (shadowBranchPath env self).length)
                 itemPath.rel_path,
               is_rename := some true, is_new_file := some false,
               is_binary := some false, is_deleted := none,
               created_at := some (env.dateFormat itemPath.modified_at) } ∧
      existsSync final.fs p = false ∧
      p.drop (shadowBranchPath env self).length ∈ final.self.renamedFiles := by
  obtain ⟨s1', c1, s2, final, hs1, inv1, hlive1, hs2, hfr, hrun, frf, _, _, hrest⟩ :=
    pass_decompose env self fs hok pre post itemPath hitems
  rw [hpre] at hs1
  cases hs1
  rw [hlive] at hlive1
  cases hlive1
  obtain ⟨es, eo⟩ := shadowBranchPath_congr env s1.self self inv1.repoPath inv1.branch
  have ha : RenameApplies env s1.self s1.fs itemPath c :=
    (renameApplies_iff env self fs s1 pre inv1 itemPath c).2
      ⟨hcfg, hshadow, hbin, hne, p, hmatch, huniq⟩
  have hp : (matchScan env s1.self s1.fs c).1 = p := by
    apply huniq
    have := matchScan_isRenameMatch env s1.self s1.fs c ha.2.2.2.2
    rw [es, inv1.repoPath] at this
    exact this
  have hrelp : matchedRelPath env s1.self s1.fs c = p.drop (shadowBranchPath env self).length := by
    unfold matchedRelPath
    rw [hp, es]
  have hisnew : isNewFile env itemPath (stepOutcome env s1.self s1.fs itemPath c) = false := by
    rw [stepOutcome_of_applies _ _ _ _ _ ha]
    unfold isNewFile
    simp
  have hs2self : s2.self.renamedFiles =
      s1.self.renamedFiles ++ [p.drop (shadowBranchPath env self).length] := by
    rw [hs2, ← hrelp, stepOutcome_of_applies _ _ _ _ _ ha]
    rfl
  obtain ⟨t, ht⟩ := hmatch.choose_spec.2.1
  have hpsplit : p = shadowBranchPath env self ++ p.drop (shadowBranchPath env self).length := by
    rw [← ht, List.drop_left]
  have hold_not_post : p.drop (shadowBranchPath env self).length ∉
      post.map (fun x => x.rel_path) := by
    intro hmemp
    obtain ⟨x, hx, hxrel⟩ := List.mem_map.1 hmemp
    have hxmem : x ∈ self.itemPaths := by
      rw [hitems]; exact List.mem_append_right _ (List.mem_cons_of_mem _ hx)
    obtain ⟨hx1, cx, hx2⟩ := loopInv_live env self fs pre s1 hok inv1 x hxmem
    have hnolive := existsSync_of_existsSyncLive_false _ _ _ hmatch.choose_spec.2.2.2.2.1
    rw [← hxrel, ← (hok.1 x hxmem).1, (existsSync_eq_false _ _), hx1, hx2] at hnolive
    exact Option.noConfusion hnolive
  refine ⟨final, hrun, ?_, ?_, ?_⟩
  · rw [frf.diffs _ hrest, hs2, finishItem_diffs, hisnew]
    rw [stepOutcome_of_applies _ _ _ _ _ ha, hrelp, inv1.repoPath, inv1.branch]
    simp [DiffValue.truthy, itemRecord, hbin]
  · apply (existsSync_eq_false _ _).2
    rw [hpsplit]
    apply frf.shadowNone _ hold_not_post
    rw [← hpsplit, ← hp]
    exact hfr.erased ha
  · apply frf.renamed
    rw [hs2self]
    exact List.mem_append_right _ (List.mem_singleton_self _)

/-! ## Re-running the pass -/

theorem populateItem_synced (env : Env) (st : LoopState) (itemPath : TrackedItem) (c : String)
    (hrel : relativeAfter st.self.repoPath itemPath.file_path = some itemPath.rel_path)
    (hlive : objGet st.fs itemPath.file_path = some c)
    (hshadow : objGet st.fs (shadowBranchPath env st.self ++ itemPath.rel_path) = some c)
    (hcodec : env.makePatch c c = "") :
    populateItem env st itemPath = .ok st := by
  rw [populateItem_eq env st itemPath c hlive]
  have hex : existsSync st.fs (shadowBranchPath env st.self ++ itemPath.rel_path) = true :=
    (existsSync_eq_true _ _).2 ⟨c, hshadow⟩
  have hna : ¬ RenameApplies env st.self st.fs itemPath c := by
    intro h
    have := h.2.1
    rw [hex] at this
    exact Bool.noConfusion this
  have htext : contentDiffText env st.self st.fs itemPath c = "" := by
    unfold contentDiffText
    rw [hshadow]
    split
    · exact hcodec
    · rfl
  rw [stepOutcome_of_not_applies _ _ _ _ _ hna, htext]
  have hisnew : isNewFile env itemPath
      { self := st.self, fs := st.fs, diff := .text "", isRename := false } = false := by
    unfold isNewFile
    simp [hex]
  unfold finishItem
  simp only [hisnew, Bool.false_eq_true, if_false, DiffValue.truthy, ne_eq, not_true_eq_false,
    decide_False, Bool.or_self]
  rw [copyFilesTo_single _ _ _ _ _ c hrel hlive, objSet_same _ _ _ hshadow]

theorem populateLoop_synced (env : Env) (items : List TrackedItem) (st : LoopState)
    (hcodec : ∀ a, env.makePatch a a = "")
    (h : ∀ itemPath ∈ items,
      relativeAfter st.self.repoPath itemPath.file_path = some itemPath.rel_path ∧
      ∃ c, objGet st.fs itemPath.file_path = some c ∧
        objGet st.fs (shadowBranchPath env st.self ++ itemPath.rel_path) = some c) :
    populateLoop env items st = .ok st := by
  induction items with
  | nil => rfl
  | cons x xs ih =>
    obtain ⟨hrel, c, h1, h2⟩ := h x (List.mem_cons_self _ _)
    rw [populateLoop, populateItem_synced env st x c hrel h1 h2 (hcodec c)]
    exact ih (fun y hy => h y (List.mem_cons_of_mem _ hy))

/-- C10: after one run of `populateBufferForRepo`, a second run on the resulting file system,
with the same tracked items and configuration and whatever `renamedFiles` the object starts
with, emits no record at all and leaves the file system, hence the shadow and originals
trees, exactly as it found it.  The first pass satisfies `PassOK`, and the patch of a text
against itself is the empty string. -/
theorem populate_twice_idempotent (env : Env) (self : PopulateBuffer) (fs : FS)
    (hok : PassOK env self fs) (hcodec : ∀ a, env.makePatch a a = "") :
    ∃ final, populateBufferForRepo env self fs = .ok final ∧
      ∀ renamed : List Path,
        populateBufferForRepo env { self with renamedFiles := renamed } final.fs =
          .ok { self := { self with renamedFiles := renamed }, fs := final.fs, diffs := [] } := by
  obtain ⟨final, hrun, inv, _⟩ := populateLoop_inv env self fs hok self.itemPaths []
    { self := self, fs := fs, diffs := [] } rfl (loopInv_init env self fs)
  refine ⟨final, hrun, ?_⟩
  intro renamed
  unfold populateBufferForRepo
  apply populateLoop_synced env _ _ hcodec
  intro x hx
  have hx' : x ∈ self.itemPaths := hx
  obtain ⟨hpath, _⟩ := hok.1 x hx'
  obtain ⟨hl1, c, hl2⟩ := loopInv_live env self fs _ final hok inv x hx'
  refine ⟨?_, c, hl1.trans hl2, ?_⟩
  · show relativeAfter self.repoPath x.file_path = some x.rel_path
    rw [hpath]
    exact relativeAfter_self_append _ _
  · show objGet final.fs (shadowBranchPath env self ++ x.rel_path) = some c
    rw [inv.synced x (by simpa using hx'), hl2]

/-! ## Witnesses on the sample data -/

/-- Witness for C6 (amended): `new.txt` is recognised as the renamed `old.txt`. -/
theorem populate_rename_record_witness :
    ∃ final, populateBufferForRepo sampleEnv renameSelf renameFs = .ok final ∧
      objGet final.diffs ["new.txt"] =
        some { diff := .renameJSON ["repo", "main", "old.txt"] ["repo", "main", "new.txt"]
                 ["old.txt"] ["new.txt"],
               is_rename := some true, is_new_file := some false,
               is_binary := some false, is_deleted := none, created_at := some "" } ∧
      existsSync final.fs [".shadow", "repo", "main", "old.txt"] = false ∧
      ["old.txt"] ∈ final.self.renamedFiles :=
  have hmatch : IsRenameMatch sampleEnv renameFs renameSelf.repoPath
      (shadowBranchPath sampleEnv renameSelf) "abc" [".shadow", "repo", "main", "old.txt"] :=
    ⟨"abc", by decide, by decide, by decide, by decide, by decide, by decide⟩
  populate_rename_record sampleEnv renameSelf renameFs (by decide) [] [] renameItem
    { self := renameSelf, fs := renameFs, diffs := [] } "abc"
    [".shadow", "repo", "main", "old.txt"] rfl rfl (by decide) (by decide) (by decide)
    (by decide) (by decide) hmatch
    (fun _ hq =>
      ((matchScan_count_iff sampleEnv renameSelf renameFs "abc").1 (by decide)).unique hq hmatch)

/-- C8: the code breaks the claim for a new file named `toString`.  The path is no key of
`configFiles`, it has neither a shadow copy nor an originals copy, and no shadow file is a
rename candidate; but `'toString' in this.configFiles` is true (the name is inherited from
`Object.prototype`), so the pass takes the content-diff branch of line 135: it emits a patch
record with `is_new_file = false` and writes no originals copy. -/
theorem populate_inherited_name_not_new_file :
    objHas inheritedSelf.configFiles inheritedItem.rel_path = false ∧
    existsSync inheritedFs (shadowBranchPath sampleEnv inheritedSelf ++ ["toString"]) = false ∧
    existsSync inheritedFs (originalsBranchPath sampleEnv inheritedSelf ++ ["toString"])
      = false ∧
    walkSync inheritedFs (shadowBranchPath sampleEnv inheritedSelf) = [] ∧
    populateBufferForRepo sampleEnv inheritedSelf inheritedFs =
      .ok { self := inheritedSelf,
            fs := [(["repo", "toString"], "abc"),
                   ([".shadow", "repo", "main", "toString"], "abc")],
            diffs := [(["toString"],
              { diff := .text "abc", is_rename := some false, is_new_file := some false,
                is_binary := some false, is_deleted := none, created_at := some "" })] } :=
  ⟨by decide, by decide, by decide, by decide, rfl⟩

/-- Witness for C7: the unchanged `a.txt` gets no record. -/
theorem populate_unchanged_no_record_witness :
    ∃ final, populateBufferForRepo sampleEnv trackedSelf trackedFs = .ok final ∧
      objGet final.diffs ["a.txt"] = none :=
  populate_unchanged_no_record sampleEnv trackedSelf trackedFs (by decide) textItem "x"
    (by decide) (by decide) (by decide) (by decide) (by decide)

/-- Witness for C9: the binary `img.bin`. -/
theorem populate_binary_record_witness :
    ∃ final, populateBufferForRepo sampleEnv trackedSelf trackedFs = .ok final ∧
      (∀ r, objGet final.diffs ["img.bin"] = some r →
        r.diff = .text "" ∧ r.is_rename = some false) ∧
      (objHas trackedSelf.configFiles ["img.bin"] = true →
        objGet final.diffs ["img.bin"] = none) :=
  populate_binary_record sampleEnv trackedSelf trackedFs (by decide) binaryItem (by decide)
    (by decide)

/-- Witness for C10 on the rename sample. -/
theorem populate_twice_idempotent_witness :
    PassOK sampleEnv renameSelf renameFs ∧
    ∃ final, populateBufferForRepo sampleEnv renameSelf renameFs = .ok final ∧
      ∀ renamed : List Path,
        populateBufferForRepo sampleEnv { renameSelf with renamedFiles := renamed } final.fs =
          .ok { self := { renameSelf with renamedFiles := renamed }, fs := final.fs,
                diffs := [] } :=
  ⟨by decide,
    populate_twice_idempotent sampleEnv renameSelf renameFs (by decide) (fun _ => if_pos rfl)⟩

/-! ## detectBranchChange -/

theorem shouldSyncBranch_of_all_null (configFiles : ConfigFiles)
    (h : ∀ k id, objGet configFiles k = some id → id = none) :
    shouldSyncBranch configFiles = true := by
  unfold shouldSyncBranch
  rw [List.all_eq_true]
  intro k hk
  rw [mem_objKeys] at hk
  rw [decide_eq_true_eq]
  cases hg : objGet configFiles k with
  | none => exact absurd hg hk
  | some id => rw [h k id hg]

theorem usersLookup_of_strGet (users : Users) (userEmail : String) (user : User)
    (h : strGet users userEmail = some user) : usersLookup users userEmail = some user := by
  unfold usersLookup
  rw [h]

theorem branchLookup_of_strGet (branches : List (String × ConfigFiles)) (branch : String)
    (configFiles : ConfigFiles) (h : strGet branches branch = some configFiles) :
    branchLookup branches branch = some configFiles := by
  unfold branchLookup
  rw [h]

theorem detectRepo_ready {W : Type} (env : Env) (host : Host W) (users : Users)
    (st : DetectState W) (repoPath : Path) (configRepo : ConfigRepo)
    (userEmail accessToken : String) (user : User) (configFiles : ConfigFiles)
    (hconn : configRepo.is_disconnected = false)
    (hemail : truthyString configRepo.email = some userEmail)
    (huser : strGet users userEmail = some user)
    (htoken : truthyString user.access_token = some accessToken)
    (hdisk : host.existsSync st.world repoPath = true)
    (hshadow : host.existsSync st.world (env.SHADOW_REPO ++ repoPath) = true)
    (hbranch : strGet configRepo.branches (activeBranch host st.world repoPath) =
      some configFiles)
    (hnull : shouldSyncBranch configFiles = true) :
    detectRepo env host users st repoPath configRepo =
      .ok { world := host.uploadRepo st.world repoPath (activeBranch host st.world repoPath)
              accessToken (host.getSyncablePaths st.world repoPath) userEmail,
            calls := st.calls ++
              [.uploadRepo repoPath (activeBranch host st.world repoPath) accessToken userEmail],
            readyRepos := objSet st.readyRepos repoPath (activeBranch host st.world repoPath) } := by
  unfold detectRepo
  simp only [hconn, hemail, usersLookup_of_strGet _ _ _ huser, htoken, hdisk, hshadow,
    branchLookup_of_strGet _ _ _ hbranch, hnull, if_true,
    Bool.false_eq_true, if_false, Bool.not_true, Bool.or_self]

theorem detectRepo_total {W : Type} (env : Env) (host : Host W) (users : Users)
    (st : DetectState W) (repoPath : Path) (configRepo : ConfigRepo)
    (hid : configRepo.is_disconnected = false →
      ∀ userEmail, truthyString configRepo.email = some userEmail →
        (strGet users userEmail).isSome = true) :
    ∃ st1, detectRepo env host users st repoPath configRepo = .ok st1 ∧
      (∀ c ∈ st.calls, c ∈ st1.calls) ∧
      (∀ q, q ≠ repoPath → objGet st1.readyRepos q = objGet st.readyRepos q) := by
  unfold detectRepo
  cases hd : configRepo.is_disconnected with
  | true => exact ⟨st, by simp, fun c hc => hc, fun q _ => rfl⟩
  | false =>
    simp only [Bool.false_eq_true, if_false]
    cases he : truthyString configRepo.email with
    | none => exact ⟨st, rfl, fun c hc => hc, fun q _ => rfl⟩
    | some userEmail =>
      have hsome := hid hd userEmail he
      obtain ⟨user, hu⟩ := Option.isSome_iff_exists.1 hsome
      simp only [usersLookup_of_strGet _ _ _ hu]
      cases ht : truthyString user.access_token with
      | none => exact ⟨_, rfl, fun c hc => List.mem_append_left _ hc, fun q _ => rfl⟩
      | some accessToken =>
        simp only []
        split
        · exact ⟨st, rfl, fun c hc => hc, fun q _ => rfl⟩
        · split
          · split
            · exact ⟨_, rfl, fun c hc => List.mem_append_left _ hc, fun q _ => rfl⟩
            · exact ⟨_, rfl, fun c hc => List.mem_append_left _ hc, fun q _ => rfl⟩
          · refine ⟨_, rfl, ?_, ?_⟩
            · intro c hc
              show c ∈ (if _ then _ else st : DetectState W).calls
              split
              · exact List.mem_append_left _ hc
              · exact hc
            · intro q hq
              show objGet (objSet (if _ then _ else st : DetectState W).readyRepos _ _) q = _
              rw [objGet_objSet, if_neg (fun h => hq h.symm)]
              split <;> rfl

theorem detectLoop_total {W : Type} (env : Env) (host : Host W) (configJSON : ConfigJSON)
    (users : Users) (hids : IdentitiesKnown configJSON users) (keys : List Path)
    (hkeys : ∀ k ∈ keys, k ∈ objKeys configJSON.repos) (st : DetectState W) :
    ∃ st1, detectLoop env host users configJSON.repos keys st = .ok st1 ∧
      (∀ c ∈ st.calls, c ∈ st1.calls) ∧
      (∀ q, q ∉ keys → objGet st1.readyRepos q = objGet st.readyRepos q) := by
  induction keys generalizing st with
  | nil => exact ⟨st, rfl, fun c hc => hc, fun q _ => rfl⟩
  | cons k rest ih =>
    have hk := hkeys k (List.mem_cons_self _ _)
    have hk2 := hk
    rw [mem_objKeys] at hk2
    cases hg : objGet configJSON.repos k with
    | none => exact absurd hg hk2
    | some configRepo =>
      obtain ⟨st1, h1, hc1, hr1⟩ := detectRepo_total env host users st k configRepo
        (hids k hk configRepo hg)
      obtain ⟨st2, h2, hc2, hr2⟩ := ih (fun x hx => hkeys x (List.mem_cons_of_mem _ hx)) st1
      refine ⟨st2, ?_, fun c hc => hc2 c (hc1 c hc), ?_⟩
      · rw [detectLoop, hg]
        simp only [h1]
        exact h2
      · intro q hq
        rw [List.mem_cons, not_or] at hq
        rw [hr2 q hq.2, hr1 q hq.1]

theorem detectLoop_append {W : Type} (env : Env) (host : Host W) (users : Users)
    (repos : List (Path × ConfigRepo)) (pre rest : List Path) (st s1 : DetectState W)
    (h : detectLoop env host users repos pre st = .ok s1) :
    detectLoop env host users repos (pre ++ rest) st = detectLoop env host users repos rest s1 := by
  induction pre generalizing st with
  | nil =>
    simp only [detectLoop, Except.ok.injEq] at h
    rw [List.nil_append, h]
  | cons x xs ih =>
    rw [List.cons_append, detectLoop]
    rw [detectLoop] at h
    cases hg : objGet repos x with
    | none => rw [hg] at h; exact Except.noConfusion h
    | some cr =>
      rw [hg] at h
      simp only at h ⊢
      cases hx : detectRepo env host users st x cr with
      | error e => rw [hx] at h; exact Except.noConfusion h
      | ok st2 =>
        rw [hx] at h
        exact ih st2 h

/-- C2: a repository that names an e-mail the identity store has no entry for makes
`detectBranchChange` throw a `TypeError`, both with an absent store and with a store that
knows other e-mails only; the second repository, whose identity is in that store with a
valid token, is never examined. -/
theorem detectBranchChange_missing_identity_throws :
    detectBranchChange sampleEnv sampleHost twoRepoConfig none () = .error .typeError ∧
    detectBranchChange sampleEnv sampleHost twoRepoConfig (some otherUsers) ()
      = .error .typeError ∧
    strGet otherUsers "other@example.com" = some { access_token := some "token" } :=
  ⟨rfl, rfl, by decide⟩

/-- C1 as stated fails: the repository is connected, its identity has a token, it and its
shadow tree exist on disk, and its active branch `main` is in its configuration with its only
file mapped to `null`; the full upload is triggered and the repository is still a key of the
returned `readyRepos`. -/
theorem detectBranchChange_unassigned_branch_ready :
    unsyncedRepo.is_disconnected = false ∧
    strGet sampleUsers "dev@example.com" = some { access_token := some "token" } ∧
    sampleHost.existsSync () ["repo"] = true ∧
    sampleHost.existsSync () (sampleEnv.SHADOW_REPO ++ ["repo"]) = true ∧
    strGet unsyncedRepo.branches (activeBranch sampleHost () ["repo"]) =
      some [(["a.txt"], none)] ∧
    detectBranchChange sampleEnv sampleHost unsyncedConfig (some sampleUsers) () =
      .ok { world := (),
            calls := [Call.uploadRepo ["repo"] "main" "token" "dev@example.com"],
            readyRepos := [(["repo"], "main")] } :=
  ⟨by decide, by decide, by decide, by decide, by decide, rfl⟩

/-- C1, amended: a repository that passes the connection, credential and on-disk checks and
whose active branch is in its configuration with every file identifier `null` has the full
upload triggered and is then included in the mapping `detectBranchChange` returns, with its
active branch as value (provided no repository of the configuration names an e-mail missing
from the identity store). -/
theorem detectBranchChange_unassigned_branch_included {W : Type} (env : Env) (host : Host W)
    (configJSON : ConfigJSON) (users : Option Users) (w : W)
    (hids : IdentitiesKnown configJSON (users.getD []))
    (pre post : List Path) (repoPath : Path) (configRepo : ConfigRepo) (s1 : DetectState W)
    (userEmail accessToken : String) (user : User) (configFiles : ConfigFiles)
    (hkeys : objKeys configJSON.repos = pre ++ repoPath :: post)
    (hpre : detectLoop env host (users.getD []) configJSON.repos pre
      { world := w, calls := [], readyRepos := [] } = .ok s1)
    (hrepo : objGet configJSON.repos repoPath = some configRepo)
    (hconn : configRepo.is_disconnected = false)
    (hemail : truthyString configRepo.email = some userEmail)
    (huser : strGet (users.getD []) userEmail = some user)
    (htoken : truthyString user.access_token = some accessToken)
    (hdisk : host.existsSync s1.world repoPath = true)
    (hshadow : host.existsSync s1.world (env.SHADOW_REPO ++ repoPath) = true)
    (hbranch : strGet configRepo.branches (activeBranch host s1.world repoPath) =
      some configFiles)
    (hnull : ∀ k id, objGet configFiles k = some id → id = none) :
    ∃ final, detectBranchChange env host configJSON users w = .ok final ∧
      Call.uploadRepo repoPath (activeBranch host s1.world repoPath) accessToken userEmail ∈
        final.calls ∧
      objGet final.readyRepos repoPath = some (activeBranch host s1.world repoPath) := by
  have hstep := detectRepo_ready env host (users.getD []) s1 repoPath configRepo userEmail
    accessToken user configFiles hconn hemail huser htoken hdisk hshadow hbranch
    (shouldSyncBranch_of_all_null configFiles hnull)
  have hnodup := nodup_objKeys configJSON.repos
  rw [hkeys] at hnodup
  have hnotpost : repoPath ∉ post :=
    (List.nodup_cons.1 (List.nodup_append.1 hnodup).2.1).1
  obtain ⟨final, hfin, hcalls, hready⟩ := detectLoop_total env host configJSON (users.getD [])
    hids post (fun k hk => by rw [hkeys]; exact List.mem_append_right _ (List.mem_cons_of_mem _ hk))
    { world := host.uploadRepo s1.world repoPath (activeBranch host s1.world repoPath)
        accessToken (host.getSyncablePaths s1.world repoPath) userEmail,
      calls := s1.calls ++
        [.uploadRepo repoPath (activeBranch host s1.world repoPath) accessToken userEmail],
      readyRepos := objSet s1.readyRepos repoPath (activeBranch host s1.world repoPath) }
  refine ⟨final, ?_, hcalls _ (List.mem_append_right _ (List.mem_singleton_self _)), ?_⟩
  · unfold detectBranchChange
    rw [hkeys, detectLoop_append env host _ _ pre _ _ s1 hpre, detectLoop, hrepo]
    simp only [hstep]
    exact hfin
  · rw [hready repoPath hnotpost, objGet_objSet, if_pos rfl]

/-- Witness for C1 (amended) on the sample configuration. -/
theorem detectBranchChange_unassigned_branch_included_witness :
    ∃ final, detectBranchChange sampleEnv sampleHost unsyncedConfig (some sampleUsers) ()
        = .ok final ∧
      Call.uploadRepo ["repo"] "main" "token" "dev@example.com" ∈ final.calls ∧
      objGet final.readyRepos ["repo"] = some "main" :=
  detectBranchChange_unassigned_branch_included sampleEnv sampleHost unsyncedConfig
    (some sampleUsers) ()
    (by
      intro repoPath hk configRepo hg _ userEmail he
      have hk1 : repoPath = ["repo"] := by simpa [unsyncedConfig, objKeys] using hk
      subst hk1
      rw [show objGet unsyncedConfig.repos ["repo"] = some unsyncedRepo from rfl] at hg
      cases hg
      rw [show truthyString unsyncedRepo.email = some "dev@example.com" from rfl] at he
      cases he
      decide)
    [] [] ["repo"] unsyncedRepo { world := (), calls := [], readyRepos := [] }
    "dev@example.com" "token" { access_token := some "token" } [(["a.txt"], none)]
    (by decide) rfl (by decide) (by decide) (by decide) (by decide) (by decide) rfl rfl
    (by decide)
    (by
      intro k id h
      by_cases hk : (["a.txt"] : Path) = k
      · subst hk
        rw [show objGet ([(["a.txt"], none)] : ConfigFiles) ["a.txt"] = some none from rfl] at h
        cases h
        rfl
      · simp [objGet, hk] at h)

end CodeSync
